import Mathlib

/-!
IFF chunk reader (`src/c/iff.h`): shallow embedding and checked properties.

The C reader is a cursor over a borrowed byte buffer plus a fixed array of 64
frames.  Every `uint32_t` is a `Nat` and every C operation on it is reduced
modulo `2^32` explicitly.  Functions that mutate `*self` return the new reader
next to the result code.  A memory access outside the bytes reachable from the
`data` pointer, or outside the 64-entry frame array, is undefined behaviour in
C; here it is the explicit outcome `Trap.OutOfBounds`.  The two loops that may
spin (the child scan and the string read) take fuel, and running out is
`Trap.OutOfFuel`.  The schema walker `read_asht` of `src/c/experiments.c` is
embedded as well.

Byte order: the code uses `_byteswap_ulong` from `<intrin.h>` on a
little-endian host, so `memcpy` into a `uint32_t` is a little-endian load.
-/

namespace Iff

/-! ## Machine arithmetic -/

/-- Number of values of a `uint32_t`. -/
def U32 : Nat := 4294967296

/-- Addition `a + b` of two `uint32_t`. -/
def add32 (a b : Nat) : Nat := (a + b) % U32

/-- Subtraction `a - b` of two `uint32_t` (wraps below zero). -/
def sub32 (a b : Nat) : Nat := (a % U32 + (U32 - b % U32)) % U32

/-- A `memcpy` of four bytes at offset `off` of `bs` into a `uint32_t`
(little-endian host). -/
def load32 (bs : List Nat) (off : Nat) : Nat :=
  bs.getD off 0 % 256 + bs.getD (off + 1) 0 % 256 * 256
    + bs.getD (off + 2) 0 % 256 * 65536 + bs.getD (off + 3) 0 % 256 * 16777216

/-- The four bytes a `uint32_t` occupies in memory (little-endian host). -/
def store32 (x : Nat) : List Nat :=
  [x % 256, x / 256 % 256, x / 65536 % 256, x / 16777216 % 256]

/-- The intrinsic `_byteswap_ulong`: reverses the four bytes of a `uint32_t`. -/
def _byteswap_ulong (x : Nat) : Nat :=
  x % 256 * 16777216 + x / 256 % 256 * 65536 + x / 65536 % 256 * 256 + x / 16777216 % 256

/-- The value of a big-endian 4-byte size field `b0 b1 b2 b3`. -/
def be32 (b0 b1 b2 b3 : Nat) : Nat := b0 * 16777216 + b1 * 65536 + b2 * 256 + b3

/-- The macro `ae_iff_tag(str)`:
`(uint32_t)(str[3] << 24 | str[2] << 16 | str[1] << 8 | str[0] << 0)`. -/
def ae_iff_tag (str : List Char) : Nat :=
  ((str.getD 3 ' ').toNat <<< 24 ||| (str.getD 2 ' ').toNat <<< 16
    ||| (str.getD 1 ' ').toNat <<< 8 ||| (str.getD 0 ' ').toNat <<< 0) % U32

/-- The macro `ae_length_of(self->stack)` for `IffStackNode stack[64]`. -/
def STACK_LEN : Nat := 64

/-! ## Data model -/

/-- The struct `IffStackNode` (field `end` is spelled `end_`). -/
structure IffStackNode where
  start : Nat
  end_ : Nat
  tag : Nat
deriving DecidableEq, Repr

/-- The struct `A_IffFormHeader`. -/
structure A_IffFormHeader where
  form : Nat
  size : Nat
  tag : Nat
deriving DecidableEq, Repr

/-- The struct `A_IffChunkHeader`. -/
structure A_IffChunkHeader where
  tag : Nat
  size : Nat
deriving DecidableEq, Repr

/-- The enum `IffResult`. -/
inductive IffResult where
  | Ok
  | StackExhausted
  | ReadPastEof
  | UnexpectedTag
  | StackUnderflow
  | ReaderError
  | AllocationError
deriving DecidableEq, Repr

/-- The struct `IffReader`.  `data` holds the bytes addressable from the
`data` pointer; the buffer proper is its first `data_len` bytes. -/
structure IffReader where
  pos : Nat
  data_len : Nat
  data : List Nat
  stack : List IffStackNode
  stack_pos : Nat
deriving DecidableEq, Repr

/-- Ways a call can fail to return: undefined behaviour by an access outside
memory, or a loop that used up its fuel. -/
inductive Trap where
  | OutOfBounds
  | OutOfFuel
deriving DecidableEq, Repr

/-- The bytes `memcpy(dst, data + pos, size)` copies, when all of them are
addressable. -/
def memcpy (data : List Nat) (pos size : Nat) : Option (List Nat) :=
  if pos + size ≤ data.length then some ((data.drop pos).take size) else none

/-! ## Operations -/

/-- The function `iff_init`: a zero-initialised reader over `data` (the
`error_buffer` arguments are not used by the source). -/
def iff_init (data : List Nat) (data_len : Nat) : IffReader :=
  { pos := 0, data_len := data_len, data := data,
    stack := List.replicate 64 { start := 0, end_ := 0, tag := 0 }, stack_pos := 0 }

/-- The function `iff_read_internal`: a read bounded by the whole buffer.
Returns the result, the reader and the bytes copied to `dst`. -/
def iff_read_internal (self : IffReader) (size : Nat) :
    Except Trap (IffResult × IffReader × List Nat) :=
  let pos := self.pos
  if size > sub32 self.data_len pos then
    .ok (IffResult.ReadPastEof, self, [])
  else
    match memcpy self.data pos size with
    | none => .error Trap.OutOfBounds
    | some dst => .ok (IffResult.Ok, { self with pos := add32 self.pos size }, dst)

/-- The function `iff_read`: a read bounded by the top frame's end.
Returns the result, the reader and the bytes copied to `dst`. -/
def iff_read (self : IffReader) (size : Nat) :
    Except Trap (IffResult × IffReader × List Nat) :=
  if self.stack_pos = 0 then
    .ok (IffResult.StackExhausted, self, [])
  else
    match self.stack[sub32 self.stack_pos 1]? with
    | none => .error Trap.OutOfBounds
    | some node =>
      let pos := self.pos
      if size > sub32 node.end_ pos then
        .ok (IffResult.ReadPastEof, self, [])
      else
        match memcpy self.data pos size with
        | none => .error Trap.OutOfBounds
        | some dst => .ok (IffResult.Ok, { self with pos := add32 self.pos size }, dst)

/-- The function `iff_open_form`.  The store into `stack[stack_pos]` follows the
capacity check; the final branch is that store on a frame array that lacks the
slot, which the 64-entry array of a well-typed reader never does. -/
def iff_open_form (self : IffReader) (tag : Nat) : Except Trap (IffResult × IffReader) :=
  match iff_read_internal self 12 with
  | .error t => .error t
  | .ok (result, self, bytes) =>
    if result ≠ IffResult.Ok then
      .ok (result, self)
    else
      let header : A_IffFormHeader :=
        { form := load32 bytes 0, size := load32 bytes 4, tag := load32 bytes 8 }
      let header := { header with size := _byteswap_ulong header.size }
      if header.form ≠ ae_iff_tag ['F', 'O', 'R', 'M'] then
        .ok (IffResult.UnexpectedTag, self)
      else if header.tag ≠ tag then
        .ok (IffResult.UnexpectedTag, self)
      else if self.stack_pos ≥ STACK_LEN then
        .ok (IffResult.StackExhausted, self)
      else if self.stack_pos < self.stack.length then
        let node : IffStackNode :=
          { start := self.pos, end_ := sub32 (add32 self.pos header.size) 4, tag := tag }
        .ok (IffResult.Ok, { self with stack := self.stack.set self.stack_pos node,
                                       stack_pos := add32 self.stack_pos 1 })
      else
        .error Trap.OutOfBounds

/-- The function `iff_open_chunk`, with the same store into `stack[stack_pos]`
as `iff_open_form`. -/
def iff_open_chunk (self : IffReader) (tag : Nat) : Except Trap (IffResult × IffReader) :=
  match iff_read_internal self 8 with
  | .error t => .error t
  | .ok (result, self, bytes) =>
    if result ≠ IffResult.Ok then
      .ok (result, self)
    else
      let header : A_IffChunkHeader := { tag := load32 bytes 0, size := load32 bytes 4 }
      let header := { header with size := _byteswap_ulong header.size }
      if header.tag ≠ tag then
        .ok (IffResult.UnexpectedTag, self)
      else if self.stack_pos ≥ STACK_LEN then
        .ok (IffResult.StackExhausted, self)
      else if self.stack_pos < self.stack.length then
        let node : IffStackNode :=
          { start := self.pos, end_ := add32 self.pos header.size, tag := tag }
        .ok (IffResult.Ok, { self with stack := self.stack.set self.stack_pos node,
                                       stack_pos := add32 self.stack_pos 1 })
      else
        .error Trap.OutOfBounds

/-- The function `iff_close_chunk`. -/
def iff_close_chunk (self : IffReader) (tag : Nat) : Except Trap (IffResult × IffReader) :=
  if self.stack_pos = 0 then
    .ok (IffResult.StackUnderflow, self)
  else
    let self := { self with stack_pos := sub32 self.stack_pos 1 }
    match self.stack[self.stack_pos]? with
    | none => .error Trap.OutOfBounds
    | some chunk =>
      if chunk.tag ≠ tag then
        .ok (IffResult.ReaderError, self)
      else if self.pos ≠ chunk.end_ ∧ self.pos > chunk.end_ then
        .ok (IffResult.ReaderError, self)
      else
        .ok (IffResult.Ok, { self with pos := chunk.end_ })

/-- The function `iff_close_form`. -/
def iff_close_form (self : IffReader) (tag : Nat) : Except Trap (IffResult × IffReader) :=
  iff_close_chunk self tag

/-- The `while (curr < end)` loop of `iff_get_remaining_children`, one
iteration per unit of fuel. -/
def remaining_children_loop (data : List Nat) (end_ : Nat) :
    Nat → Nat → Nat → Except Trap Nat
  | 0, curr, count => if curr < end_ then .error Trap.OutOfFuel else .ok count
  | fuel + 1, curr, count =>
    if curr < end_ then
      match memcpy data (add32 curr 4) 4 with
      | none => .error Trap.OutOfBounds
      | some bytes =>
        let length := _byteswap_ulong (load32 bytes 0)
        remaining_children_loop data end_ fuel (add32 curr (add32 length 8)) (add32 count 1)
    else
      .ok count

/-- The function `iff_get_remaining_children`, its loop bounded by `fuel`
iterations. -/
def iff_get_remaining_children (fuel : Nat) (self : IffReader) : Except Trap Nat :=
  let stack_pos := self.stack_pos
  if stack_pos = 0 then
    .ok 0
  else
    let curr := self.pos
    match self.stack[sub32 stack_pos 1]? with
    | none => .error Trap.OutOfBounds
    | some curr_stack =>
      let start := curr_stack.start
      let end_ := curr_stack.end_
      if curr < start ∨ curr > end_ then
        .ok 0
      else
        remaining_children_loop self.data end_ fuel curr 0

/-! ## Well-typed states -/

/-- Every field of the frame is a `uint32_t`. -/
def IffStackNode.WellTyped (n : IffStackNode) : Prop :=
  n.start < U32 ∧ n.end_ < U32 ∧ n.tag < U32

/-- The reader is a value of the C type: `uint32_t` fields, a 64-entry frame
array, `uint8_t` bytes, and a buffer whose `data_len` bytes are addressable. -/
def IffReader.WellTyped (r : IffReader) : Prop :=
  r.pos < U32 ∧ r.data_len < U32 ∧ r.stack_pos < U32 ∧ r.stack.length = 64
    ∧ (∀ n ∈ r.stack, n.WellTyped) ∧ (∀ b ∈ r.data, b < 256) ∧ r.data_len ≤ r.data.length

instance (n : IffStackNode) : Decidable n.WellTyped := by
  unfold IffStackNode.WellTyped; infer_instance

instance (r : IffReader) : Decidable r.WellTyped := by
  unfold IffReader.WellTyped; infer_instance

/-! ## Concrete buffers -/

/-- A 13-byte buffer: a FORM header `FORM`, size 0, tag `ABCD`, then one byte. -/
def short_form_buf : List Nat := [70, 79, 82, 77, 0, 0, 0, 0, 65, 66, 67, 68, 9]

/-- A 32-byte buffer: `FORM(24, LIST)` holding `CHUNK(DATA, 4 bytes)` and
`CHUNK(ITEM, 0 bytes)`. -/
def list_buf : List Nat :=
  [70, 79, 82, 77, 0, 0, 0, 24, 76, 73, 83, 84,
   68, 65, 84, 65, 0, 0, 0, 4, 1, 2, 3, 4,
   73, 84, 69, 77, 0, 0, 0, 0]

/-- An 8-byte buffer: one chunk header `DATA` declaring size `0xFFFFFFFF`. -/
def wrap_chunk_buf : List Nat := [68, 65, 84, 65, 255, 255, 255, 255]

/-- The reader over `list_buf` after `iff_open_form` of `LIST`. -/
def list_reader : IffReader :=
  { pos := 12, data_len := 32, data := list_buf,
    stack := (List.replicate 64 { start := 0, end_ := 0, tag := 0 }).set 0
      { start := 12, end_ := 32, tag := ae_iff_tag ['L', 'I', 'S', 'T'] },
    stack_pos := 1 }

deriving instance DecidableEq for Except

/-- The bytes of `n` chunk headers `AAAA` of size 0 followed by the FORM header
`FORM`, size 4, tag `BBBB`. -/
def nested_headers : Nat → List Nat
  | 0 => [70, 79, 82, 77, 0, 0, 0, 4, 66, 66, 66, 66]
  | n + 1 => [65, 65, 65, 65, 0, 0, 0, 0] ++ nested_headers n

/-- A caller that issues `n` calls of `iff_open_chunk` with the same tag and
stops at the first result that is not `Ok`. -/
def open_chunk_times (tag : Nat) : Nat → IffReader → Except Trap (IffResult × IffReader)
  | 0, r => .ok (IffResult.Ok, r)
  | n + 1, r =>
    match iff_open_chunk r tag with
    | .ok (IffResult.Ok, r1) => open_chunk_times tag n r1
    | other => other

/-- The reader over `nested_headers 64` with its 64 chunks `AAAA` open: frame
`i` is `{8 (i + 1), 8 (i + 1), AAAA}` and the cursor is at 512. -/
def full_reader : IffReader :=
  { pos := 512, data_len := 524, data := nested_headers 64,
    stack := (List.range 64).map fun i =>
      { start := 8 * (i + 1), end_ := 8 * (i + 1), tag := ae_iff_tag ['A', 'A', 'A', 'A'] },
    stack_pos := 64 }

/-! ## Chunk layouts and callers -/

/-- The four bytes of a big-endian 4-byte size field holding `x`. -/
def size_bytes (x : Nat) : List Nat :=
  [x / 16777216 % 256, x / 65536 % 256, x / 256 % 256, x % 256]

/-- The bytes from `p` to `e` are exactly the listed chunks back to back: each
`(tag, size)` is an 8-byte header (tag bytes, big-endian size) followed by
`size` payload bytes. -/
def chunks_span (data : List Nat) : List (Nat × Nat) → Nat → Nat → Prop
  | [], p, e => p = e
  | (tag, size) :: rest, p, e =>
    tag < U32 ∧ size < U32 ∧ (data.drop p).take 8 = store32 tag ++ size_bytes size
      ∧ chunks_span data rest (p + 8 + size) e

instance chunks_span_decidable (data : List Nat) :
    (hdrs : List (Nat × Nat)) → (p e : Nat) → Decidable (chunks_span data hdrs p e)
  | [], p, e => inferInstanceAs (Decidable (p = e))
  | (tag, size) :: rest, p, e =>
    have := chunks_span_decidable data rest (p + 8 + size) e
    inferInstanceAs (Decidable (tag < U32 ∧ size < U32
      ∧ (data.drop p).take 8 = store32 tag ++ size_bytes size
      ∧ chunks_span data rest (p + 8 + size) e))

/-- A caller that consumes children: for each tag an `iff_open_chunk` and at
once the matching `iff_close_chunk`, stopping at the first result that is not
`Ok`. -/
def walk_children : List Nat → IffReader → Except Trap (IffResult × IffReader)
  | [], r => .ok (IffResult.Ok, r)
  | tag :: rest, r =>
    match iff_open_chunk r tag with
    | .ok (IffResult.Ok, r1) =>
      match iff_close_chunk r1 tag with
      | .ok (IffResult.Ok, r2) => walk_children rest r2
      | other => other
    | other => other

/-! ## Reference definitions -/

/-- Close as the specification words it: `StackUnderflow` on an empty stack;
otherwise pop the top frame, fail `ReaderError` if its tag is not the expected
one or the cursor is past its end, else succeed with the cursor set to the
frame's end. -/
def close_reference (r : IffReader) (expected_tag : Nat) : IffResult × IffReader :=
  if r.stack_pos = 0 then
    (IffResult.StackUnderflow, r)
  else
    let frame := r.stack.getD (r.stack_pos - 1) { start := 0, end_ := 0, tag := 0 }
    let popped := { r with stack_pos := r.stack_pos - 1 }
    if frame.tag ≠ expected_tag ∨ r.pos > frame.end_ then
      (IffResult.ReaderError, popped)
    else
      (IffResult.Ok, { popped with pos := frame.end_ })

/-! ## String reads and call sequences -/

/-- The struct `String8`: `str` holds the bytes addressable from the `str`
pointer, `size` is the capacity the caller declares. -/
structure String8 where
  str : List Nat
  size : Nat
deriving DecidableEq, Repr

/-- The `while (data[pos] != 0)` loop of `iff_read_string`, one iteration per
unit of fuel.  Returns the destination bytes and the index of the terminator. -/
def read_string_loop (data : List Nat) :
    Nat → List Nat → Nat → Nat → Except Trap (List Nat × Nat)
  | 0, str, pos, _ =>
    match data[pos]? with
    | none => .error Trap.OutOfBounds
    | some b => if b % 256 ≠ 0 then .error Trap.OutOfFuel else .ok (str, pos)
  | fuel + 1, str, pos, write_pos =>
    match data[pos]? with
    | none => .error Trap.OutOfBounds
    | some b =>
      if b % 256 ≠ 0 then
        if write_pos < str.length then
          read_string_loop data fuel (str.set write_pos (b % 256)) (add32 pos 1)
            (add32 write_pos 1)
        else
          .error Trap.OutOfBounds
      else
        .ok (str, pos)

/-- The function `iff_read_string`, its loop bounded by `fuel` iterations.
Returns the result, the reader and the destination. -/
def iff_read_string (fuel : Nat) (self : IffReader) (str : String8) :
    Except Trap (IffResult × IffReader × String8) :=
  if self.stack_pos = 0 then
    .ok (IffResult.StackExhausted, self, str)
  else
    let start := self.pos
    let pos := start
    let data := self.data
    let write_pos := 0
    match read_string_loop data fuel str.str pos write_pos with
    | .error t => .error t
    | .ok (bytes, pos) =>
      .ok (IffResult.Ok, { self with pos := add32 pos 1 }, { str with str := bytes })

/-- One call of a public operation that may change the reader.  A string read
carries its destination and the fuel of its loop. -/
inductive Op where
  | open_form (tag : Nat)
  | open_chunk (tag : Nat)
  | read (size : Nat)
  | read_string (fuel : Nat) (str : String8)
  | close_chunk (tag : Nat)
  | close_form (tag : Nat)
deriving DecidableEq, Repr

/-- The result and the reader after one call. -/
def step (op : Op) (r : IffReader) : Except Trap (IffResult × IffReader) :=
  match op with
  | .open_form tag => iff_open_form r tag
  | .open_chunk tag => iff_open_chunk r tag
  | .read size =>
    match iff_read r size with
    | .error t => .error t
    | .ok (res, r1, _) => .ok (res, r1)
  | .read_string fuel str =>
    match iff_read_string fuel r str with
    | .error t => .error t
    | .ok (res, r1, _) => .ok (res, r1)
  | .close_chunk tag => iff_close_chunk r tag
  | .close_form tag => iff_close_form r tag

/-- A caller that issues the calls in order, whatever they return, and
collects the results. -/
def run_ops : List Op → IffReader → Except Trap (List IffResult × IffReader)
  | [], r => .ok ([], r)
  | op :: ops, r =>
    match step op r with
    | .error t => .error t
    | .ok (res, r1) =>
      match run_ops ops r1 with
      | .error t => .error t
      | .ok (rs, r2) => .ok (res :: rs, r2)

/-- The 72-byte buffer `FORM(64, OUTR){ FORM(32, INNR){ CHUNK(DATA, 4 bytes),
CHUNK(ITEM, 0), CHUNK(ITEM, 0) }, FORM(12, TAIL){ CHUNK(LEAF, 0) } }`. -/
def nested_buf : List Nat :=
  [70, 79, 82, 77, 0, 0, 0, 64, 79, 85, 84, 82,
   70, 79, 82, 77, 0, 0, 0, 32, 73, 78, 78, 82,
   68, 65, 84, 65, 0, 0, 0, 4, 1, 2, 3, 4,
   73, 84, 69, 77, 0, 0, 0, 0,
   73, 84, 69, 77, 0, 0, 0, 0,
   70, 79, 82, 77, 0, 0, 0, 12, 84, 65, 73, 76,
   76, 69, 65, 70, 0, 0, 0, 0]

/-- The matching call sequence for `nested_buf`. -/
def nested_ops : List Op :=
  [.open_form (ae_iff_tag ['O', 'U', 'T', 'R']),
   .open_form (ae_iff_tag ['I', 'N', 'N', 'R']),
   .open_chunk (ae_iff_tag ['D', 'A', 'T', 'A']),
   .read 4,
   .close_chunk (ae_iff_tag ['D', 'A', 'T', 'A']),
   .open_chunk (ae_iff_tag ['I', 'T', 'E', 'M']),
   .close_chunk (ae_iff_tag ['I', 'T', 'E', 'M']),
   .open_chunk (ae_iff_tag ['I', 'T', 'E', 'M']),
   .close_chunk (ae_iff_tag ['I', 'T', 'E', 'M']),
   .close_form (ae_iff_tag ['I', 'N', 'N', 'R']),
   .open_form (ae_iff_tag ['T', 'A', 'I', 'L']),
   .open_chunk (ae_iff_tag ['L', 'E', 'A', 'F']),
   .close_chunk (ae_iff_tag ['L', 'E', 'A', 'F']),
   .close_form (ae_iff_tag ['T', 'A', 'I', 'L']),
   .close_form (ae_iff_tag ['O', 'U', 'T', 'R'])]

/-- An 11-byte buffer: `CHUNK(NAME, 3)` whose payload is the string `AB` and its
zero terminator. -/
def name_buf : List Nat := [78, 65, 77, 69, 0, 0, 0, 3, 65, 66, 0]

/-- The reader over `name_buf` after `iff_open_chunk` of `NAME`. -/
def name_reader : IffReader :=
  { pos := 8, data_len := 11, data := name_buf,
    stack := (List.replicate 64 { start := 0, end_ := 0, tag := 0 }).set 0
      { start := 8, end_ := 11, tag := ae_iff_tag ['N', 'A', 'M', 'E'] },
    stack_pos := 1 }

/-- A 13-byte buffer: `CHUNK(DATA, 2)` with payload `AB`, followed by the bytes
`CD` and a zero byte that lie after the chunk. -/
def unterminated_buf : List Nat := [68, 65, 84, 65, 0, 0, 0, 2, 65, 66, 67, 68, 0]

/-- The reader over `unterminated_buf` after `iff_open_chunk` of `DATA`. -/
def unterminated_reader : IffReader :=
  { pos := 8, data_len := 13, data := unterminated_buf,
    stack := (List.replicate 64 { start := 0, end_ := 0, tag := 0 }).set 0
      { start := 8, end_ := 10, tag := ae_iff_tag ['D', 'A', 'T', 'A'] },
    stack_pos := 1 }

/-- The readers a caller can reach from `iff_init data data_len` by calls of
the public operations, whatever they return.  (`iff_get_remaining_children`
takes a `const` reader and leaves it as it is.) -/
inductive Reachable (data : List Nat) (data_len : Nat) : IffReader → Prop
  | init : Reachable data data_len (iff_init data data_len)
  | call {r r2 : IffReader} {op : Op} {res : IffResult} :
      Reachable data data_len r → step op r = .ok (res, r2) → Reachable data data_len r2

/-! ## Well-formed states -/

/-- The frame in slot `i` of the frame array. -/
def frame (r : IffReader) (i : Nat) : IffStackNode :=
  r.stack.getD i { start := 0, end_ := 0, tag := 0 }

/-- The end of the scope a new frame is opened in: the top frame's end, or
`data_len` when no frame is open. -/
def enclosing_end (r : IffReader) : Nat :=
  if r.stack_pos = 0 then r.data_len else (frame r (r.stack_pos - 1)).end_

/-- The nesting invariant of the specification: the cursor lies inside every
open frame and every open frame lies inside the one below it. -/
def Nested (r : IffReader) : Prop :=
  (∀ i, i < r.stack_pos → (frame r i).start ≤ r.pos ∧ r.pos ≤ (frame r i).end_)
    ∧ (∀ i, i < r.stack_pos → 0 < i →
        (frame r i).start ≥ (frame r (i - 1)).start ∧ (frame r i).end_ ≤ (frame r (i - 1)).end_)

/-- Well-formedness: depth at most 64, every open frame has
`start ≤ end ≤ data_len` and lies within its parent, and the cursor lies within
the top frame (within the buffer when no frame is open). -/
def WF (r : IffReader) : Prop :=
  r.stack_pos ≤ 64
    ∧ (∀ i, i < r.stack_pos → (frame r i).start ≤ (frame r i).end_
        ∧ (frame r i).end_ ≤ r.data_len)
    ∧ (∀ i, i < r.stack_pos → 0 < i →
        (frame r (i - 1)).start ≤ (frame r i).start
          ∧ (frame r i).end_ ≤ (frame r (i - 1)).end_)
    ∧ (if r.stack_pos = 0 then r.pos ≤ r.data_len
        else (frame r (r.stack_pos - 1)).start ≤ r.pos
          ∧ r.pos ≤ (frame r (r.stack_pos - 1)).end_)

instance (r : IffReader) : Decidable (Nested r) := by
  unfold Nested; infer_instance

instance (r : IffReader) : Decidable (WF r) := by
  unfold WF; infer_instance

/-- The side condition on a call from `r` that returned `Ok` with reader `r2`:
an open pushed a frame with `start ≤ end ≤ enclosing end`, a string read had a
zero byte at an index in `[cursor, top.end)`; the other calls have none. -/
def proviso (op : Op) (r r2 : IffReader) : Prop :=
  match op with
  | .open_form _ | .open_chunk _ =>
    (frame r2 r.stack_pos).start ≤ (frame r2 r.stack_pos).end_
      ∧ (frame r2 r.stack_pos).end_ ≤ enclosing_end r
  | .read_string _ _ =>
    ∃ i, r.pos ≤ i ∧ i < (frame r (r.stack_pos - 1)).end_ ∧ r.data[i]? = some 0
  | .read _ | .close_chunk _ | .close_form _ => True

/-- A run of calls from `r` to `r2` in which every call returned `Ok`. -/
def ok_run : List Op → IffReader → IffReader → Prop
  | [], r, r2 => r2 = r
  | op :: ops, r, r2 => ∃ r1, step op r = .ok (IffResult.Ok, r1) ∧ ok_run ops r1 r2

/-- The reader over `list_buf` after `iff_open_form` of `LIST` and
`iff_open_chunk` of `DATA`. -/
def list_data_reader : IffReader :=
  { pos := 20, data_len := 32, data := list_buf,
    stack := ((List.replicate 64 { start := 0, end_ := 0, tag := 0 }).set 0
      { start := 12, end_ := 32, tag := ae_iff_tag ['L', 'I', 'S', 'T'] }).set 1
      { start := 20, end_ := 24, tag := ae_iff_tag ['D', 'A', 'T', 'A'] },
    stack_pos := 2 }

/-- A 12-byte buffer: the chunk header `DATA` declaring 16 payload bytes,
followed by only 4 bytes. -/
def oversize_buf : List Nat := [68, 65, 84, 65, 0, 0, 0, 16, 1, 2, 3, 4]

/-- The reader with `data_len = 12` over the addressable bytes `data`, after
`iff_open_chunk` of `DATA` on the header of `oversize_buf`. -/
def oversize_reader (data : List Nat) : IffReader :=
  { pos := 8, data_len := 12, data := data,
    stack := (List.replicate 64 { start := 0, end_ := 0, tag := 0 }).set 0
      { start := 8, end_ := 24, tag := ae_iff_tag ['D', 'A', 'T', 'A'] },
    stack_pos := 1 }

/-- The bytes of `oversize_buf` inside a larger allocation: 12 more bytes and
then a chunk header `DATA` of size 0 at offset 24. -/
def oversize_slack : List Nat :=
  oversize_buf ++ [9, 9, 9, 9, 9, 9, 9, 9, 9, 9, 9, 9] ++ [68, 65, 84, 65, 0, 0, 0, 0]

/-! ## The schema walker of `experiments.c` -/

/-- The macro `check_iff_result(result)` as `read_asht` sees it: after the
`#undef` it is redefined to expand to `result` alone, so the call is made and
its result code is dropped. -/
def check_iff_result (call : Except Trap (IffResult × IffReader)) : Except Trap IffReader :=
  match call with
  | .error t => .error t
  | .ok (_, iff) => .ok iff

/-- The statement `check_iff_result(iff_read(iff, &x, size))` for a variable `x`
that holds `old`: after a successful read `x` is the little-endian load of the
first four bytes read, otherwise it keeps `old`. -/
def read_variable (iff : IffReader) (size old : Nat) : Except Trap (Nat × IffReader) :=
  match iff_read iff size with
  | .error t => .error t
  | .ok (res, iff, dst) => .ok (if res = IffResult.Ok then load32 dst 0 else old, iff)

/-- The statement `check_iff_result(iff_read_string(iff, &str_buffer))`. -/
def read_string_statement (fuel : Nat) (iff : IffReader) (str_buffer : String8) :
    Except Trap (IffReader × String8) :=
  match iff_read_string fuel iff str_buffer with
  | .error t => .error t
  | .ok (_, iff, str_buffer) => .ok (iff, str_buffer)

/-- The loop `for (j = 0; j < num_defs; ++j)` of `read_asht`: a key and a
value string per round. -/
def read_asht_defs (fuel : Nat) : Nat → IffReader → String8 → Except Trap (IffReader × String8)
  | 0, iff, str_buffer => .ok (iff, str_buffer)
  | n + 1, iff, str_buffer => do
    let (iff, str_buffer) ← read_string_statement fuel iff str_buffer
    let (iff, str_buffer) ← read_string_statement fuel iff str_buffer
    read_asht_defs fuel n iff str_buffer

/-- The first loop `for (i = 0; i < perm_count; ++i)` of `read_asht`: one
chunk `PERM` per round. -/
def read_asht_perms (fuel : Nat) : Nat → IffReader → String8 → Except Trap (IffReader × String8)
  | 0, iff, str_buffer => .ok (iff, str_buffer)
  | n + 1, iff, str_buffer => do
    let iff ← check_iff_result (iff_open_chunk iff (ae_iff_tag ['P', 'E', 'R', 'M']))
    let (_, iff) ← read_variable iff 4 0
    let (iff, str_buffer) ← read_string_statement fuel iff str_buffer
    let (_, iff) ← read_variable iff 8 0
    let (_, iff) ← read_variable iff 8 0
    let (num_defs, iff) ← read_variable iff 4 0
    let (iff, str_buffer) ← read_asht_defs fuel num_defs iff str_buffer
    let iff ← check_iff_result (iff_close_chunk iff (ae_iff_tag ['P', 'E', 'R', 'M']))
    read_asht_perms fuel n iff str_buffer

/-- The second loop `for (i = 0; i < perm_count; ++i)` of `read_asht`: one
chunk `BLOB` per round. -/
def read_asht_blobs : Nat → IffReader → Except Trap IffReader
  | 0, iff => .ok iff
  | n + 1, iff => do
    let iff ← check_iff_result (iff_open_chunk iff (ae_iff_tag ['B', 'L', 'O', 'B']))
    let iff ← check_iff_result (iff_close_chunk iff (ae_iff_tag ['B', 'L', 'O', 'B']))
    read_asht_blobs n iff

/-- The function `read_asht`, every string loop bounded by `fuel` iterations.
`iff_result` is zero-initialised, which is `IffResult_Ok`, and nothing assigns
it; the 256 bytes of `string_data` start out indeterminate and are taken as
zeros. -/
def read_asht (fuel : Nat) (iff : IffReader) : Except Trap (IffResult × IffReader) := do
  let iff_result := IffResult.Ok
  let str_buffer : String8 := { str := List.replicate 256 0, size := 256 }
  let iff ← check_iff_result (iff_open_form iff (ae_iff_tag ['A', 'T', 'S', 'H']))
  let iff ← check_iff_result (iff_open_form iff (ae_iff_tag ['I', 'N', 'F', 'O']))
  let iff ← check_iff_result (iff_open_chunk iff (ae_iff_tag ['D', 'A', 'T', 'A']))
  let (perm_count, iff) ← read_variable iff 4 0
  let iff ← check_iff_result (iff_close_chunk iff (ae_iff_tag ['D', 'A', 'T', 'A']))
  let (iff, _) ← read_asht_perms fuel perm_count iff str_buffer
  let iff ← check_iff_result (iff_close_form iff (ae_iff_tag ['I', 'N', 'F', 'O']))
  let iff ← check_iff_result (iff_open_form iff (ae_iff_tag ['B', 'L', 'B', 'S']))
  let iff ← read_asht_blobs perm_count iff
  let iff ← check_iff_result (iff_close_form iff (ae_iff_tag ['B', 'L', 'B', 'S']))
  let iff ← check_iff_result (iff_close_form iff (ae_iff_tag ['A', 'T', 'S', 'H']))
  return (iff_result, iff)

/-- A 20-byte buffer: `FORM(12, LOOP)` holding the chunk header `SPIN` whose
size field is `0xFFFFFFF8`. -/
def spin_buf : List Nat :=
  [70, 79, 82, 77, 0, 0, 0, 12, 76, 79, 79, 80, 83, 80, 73, 78, 255, 255, 255, 248]

/-- The reader over `spin_buf` after `iff_open_form` of `LOOP`. -/
def spin_reader : IffReader :=
  { pos := 12, data_len := 20, data := spin_buf,
    stack := (List.replicate 64 { start := 0, end_ := 0, tag := 0 }).set 0
      { start := 12, end_ := 20, tag := ae_iff_tag ['L', 'O', 'O', 'P'] },
    stack_pos := 1 }

/-- A 36-byte buffer: `FORM(12, LIST)`, whose content is the 8 bytes after its
tag, holding the chunk header `DATA` that declares 16 payload bytes, and those
16 bytes. -/
def overhang_buf : List Nat :=
  [70, 79, 82, 77, 0, 0, 0, 12, 76, 73, 83, 84,
   68, 65, 84, 65, 0, 0, 0, 16,
   1, 2, 3, 4, 5, 6, 7, 8, 9, 10, 11, 12, 13, 14, 15, 16]

/-- The size the header at offset `c` declares: its bytes `c + 4 .. c + 8`, big
endian. -/
def declared_size (data : List Nat) (c : Nat) : Nat :=
  _byteswap_ulong (load32 ((data.drop (c + 4)).take 4) 0)

/-- The condition on the buffer under the cursor before a call from `r`.  For
an open, with `N` the size the header at the cursor declares: the container as
declared (its 8 bytes of tag and size, then `N` bytes) ends within the enclosing
scope, and a FORM has `N ≥ 4`, since its size counts the 4-byte type tag.  For
a string read: a zero byte at an index in `[cursor, top.end)`.  The other calls
have none. -/
def header_fits (op : Op) (r : IffReader) : Prop :=
  match op with
  | .open_chunk _ => r.pos + 8 + declared_size r.data r.pos ≤ enclosing_end r
  | .open_form _ =>
    4 ≤ declared_size r.data r.pos
      ∧ r.pos + 8 + declared_size r.data r.pos ≤ enclosing_end r
  | .read_string _ _ =>
    ∃ i, r.pos ≤ i ∧ i < (frame r (r.stack_pos - 1)).end_ ∧ r.data[i]? = some 0
  | .read _ | .close_chunk _ | .close_form _ => True

/-- A run of calls from `r` to `r2` in which every call returned `Ok` and the
buffer under the cursor met `header_fits` before the call. -/
def guarded_run : List Op → IffReader → IffReader → Prop
  | [], r, r2 => r2 = r
  | op :: ops, r, r2 =>
    ∃ r1, header_fits op r ∧ step op r = .ok (IffResult.Ok, r1) ∧ guarded_run ops r1 r2

/-- The offsets the scan pointer of `iff_get_remaining_children` takes when it
starts at `start` in a frame that ends at `end_`. -/
inductive Scanned (data : List Nat) (end_ start : Nat) : Nat → Prop
  | first : Scanned data end_ start start
  | next {c : Nat} : Scanned data end_ start c → c < end_ →
      Scanned data end_ start (add32 c (add32 (declared_size data c) 8))

/-! ## Arithmetic and memory lemmas -/

set_option maxRecDepth 100000

theorem sub32_of_le {a b : Nat} (h : b ≤ a) (ha : a < U32) : sub32 a b = a - b := by
  unfold sub32 U32 at *; omega

theorem add32_of_lt {a b : Nat} (h : a + b < U32) : add32 a b = a + b := by
  unfold add32 U32 at *; omega

theorem memcpy_of_le {data : List Nat} {pos size : Nat} (h : pos + size ≤ data.length) :
    memcpy data pos size = some ((data.drop pos).take size) := by
  simp [memcpy, h]

/-- A buffer-bounded read of `size` bytes that lie inside the buffer succeeds. -/
theorem iff_read_internal_ok (r : IffReader) (size : Nat) (hwt : r.WellTyped)
    (h : r.pos + size ≤ r.data_len) :
    iff_read_internal r size
      = .ok (IffResult.Ok, { r with pos := r.pos + size }, (r.data.drop r.pos).take size) := by
  obtain ⟨hp, hl, -, -, -, -, hdl⟩ := hwt
  have h1 : sub32 r.data_len r.pos = r.data_len - r.pos := sub32_of_le (by omega) hl
  have h2 : ¬ size > r.data_len - r.pos := by omega
  have h3 : add32 r.pos size = r.pos + size := add32_of_lt (by omega)
  simp [iff_read_internal, h1, h2, h3, memcpy_of_le (show r.pos + size ≤ r.data.length by omega)]

/-- With the cursor at or before the top frame's end, a read of more bytes than
remain in the frame is rejected and the reader is untouched. -/
theorem iff_read_rejects_within (r : IffReader) (node : IffStackNode) (size : Nat)
    (hwt : r.WellTyped) (hd : 0 < r.stack_pos)
    (htop : r.stack[r.stack_pos - 1]? = some node)
    (hpos : r.pos ≤ node.end_) (hsize : size > node.end_ - r.pos) :
    iff_read r size = .ok (IffResult.ReadPastEof, r, []) := by
  obtain ⟨hp, hl, hs, hlen, hst, -, hdl⟩ := hwt
  have hn : node.end_ < U32 := (hst node (List.getElem?_mem htop)).2.1
  have h0 : sub32 r.stack_pos 1 = r.stack_pos - 1 := sub32_of_le hd hs
  have h1 : sub32 node.end_ r.pos = node.end_ - r.pos := sub32_of_le hpos hn
  have h4 : r.stack_pos ≠ 0 := by omega
  simp [iff_read, h0, h1, h4, htop, hsize]

/-- Four bytes stored by `store32` load back to the same `uint32_t`. -/
theorem load32_store32 {x : Nat} (hx : x < U32) (rest : List Nat) :
    load32 (store32 x ++ rest) 0 = x := by
  simp only [load32, store32, List.cons_append, List.nil_append, List.getD_cons_zero,
    List.getD_cons_succ, Nat.zero_add]
  unfold U32 at hx
  omega

/-- Swapping the little-endian load of four bytes gives their big-endian value. -/
theorem byteswap_load32 {b0 b1 b2 b3 : Nat} (h0 : b0 < 256) (h1 : b1 < 256) (h2 : b2 < 256)
    (h3 : b3 < 256) (rest : List Nat) :
    _byteswap_ulong (load32 (b0 :: b1 :: b2 :: b3 :: rest) 0) = be32 b0 b1 b2 b3 := by
  simp only [load32, _byteswap_ulong, be32, List.getD_cons_zero, List.getD_cons_succ,
    Nat.zero_add]
  omega

/-- A load at offset `n + 4` skips the first four bytes. -/
theorem load32_skip4 (a b c d : Nat) (rest : List Nat) (n : Nat) :
    load32 (a :: b :: c :: d :: rest) (n + 4) = load32 rest n := by
  simp [load32, List.getD_cons_succ, Nat.add_assoc]

/-- Bytes copied out of a well-typed reader's memory are `uint8_t` values. -/
theorem byte_lt_of_mem_window {r : IffReader} (hwt : r.WellTyped) {p n b : Nat}
    (hb : b ∈ (r.data.drop p).take n) : b < 256 :=
  hwt.2.2.2.2.2.1 b (List.mem_of_mem_drop (List.mem_of_mem_take hb))

/-- What `iff_open_chunk` does when the 8 header bytes lie inside the buffer. -/
theorem iff_open_chunk_eq (r : IffReader) (tag : Nat) (hwt : r.WellTyped)
    (h : r.pos + 8 ≤ r.data_len) :
    iff_open_chunk r tag =
      if load32 ((r.data.drop r.pos).take 8) 0 ≠ tag then
        .ok (IffResult.UnexpectedTag, { r with pos := r.pos + 8 })
      else if r.stack_pos ≥ 64 then
        .ok (IffResult.StackExhausted, { r with pos := r.pos + 8 })
      else
        .ok (IffResult.Ok,
          { r with
            pos := r.pos + 8
            stack := r.stack.set r.stack_pos
              { start := r.pos + 8
                end_ := add32 (r.pos + 8)
                  (_byteswap_ulong (load32 ((r.data.drop r.pos).take 8) 4))
                tag := tag }
            stack_pos := r.stack_pos + 1 }) := by
  have hlen : r.stack.length = 64 := hwt.2.2.2.1
  rw [iff_open_chunk, iff_read_internal_ok r 8 hwt h]
  simp only [ne_eq, not_true_eq_false, if_false, STACK_LEN, hlen]
  split_ifs <;>
    first
    | rfl
    | omega
    | rw [add32_of_lt (show r.stack_pos + 1 < U32 by unfold U32; omega)]

/-- What `iff_open_form` does when the 12 header bytes lie inside the buffer. -/
theorem iff_open_form_eq (r : IffReader) (tag : Nat) (hwt : r.WellTyped)
    (h : r.pos + 12 ≤ r.data_len) :
    iff_open_form r tag =
      if load32 ((r.data.drop r.pos).take 12) 0 ≠ ae_iff_tag ['F', 'O', 'R', 'M'] then
        .ok (IffResult.UnexpectedTag, { r with pos := r.pos + 12 })
      else if load32 ((r.data.drop r.pos).take 12) 8 ≠ tag then
        .ok (IffResult.UnexpectedTag, { r with pos := r.pos + 12 })
      else if r.stack_pos ≥ 64 then
        .ok (IffResult.StackExhausted, { r with pos := r.pos + 12 })
      else
        .ok (IffResult.Ok,
          { r with
            pos := r.pos + 12
            stack := r.stack.set r.stack_pos
              { start := r.pos + 12
                end_ := sub32 (add32 (r.pos + 12)
                  (_byteswap_ulong (load32 ((r.data.drop r.pos).take 12) 4))) 4
                tag := tag }
            stack_pos := r.stack_pos + 1 }) := by
  have hlen : r.stack.length = 64 := hwt.2.2.2.1
  rw [iff_open_form, iff_read_internal_ok r 12 hwt h]
  simp only [ne_eq, not_true_eq_false, if_false, STACK_LEN, hlen]
  split_ifs <;>
    first
    | rfl
    | omega
    | rw [add32_of_lt (show r.stack_pos + 1 < U32 by unfold U32; omega)]

/-- A load at offset 0 reads the first four bytes, least significant first. -/
theorem load32_zero (a b c d : Nat) (rest : List Nat) :
    load32 (a :: b :: c :: d :: rest) 0
      = a % 256 + b % 256 * 256 + c % 256 * 65536 + d % 256 * 16777216 := rfl

/-- The character codes of the marker `FORM`. -/
theorem form_marker : ['F', 'O', 'R', 'M'].map Char.toNat = [70, 79, 82, 77] := by decide

/-- The value of `ae_iff_tag("FORM")`. -/
theorem ae_iff_tag_FORM : ae_iff_tag ['F', 'O', 'R', 'M'] = 1297239878 := by decide

/-- A matching chunk header inside the buffer, below the depth limit: the exact
reader `iff_open_chunk` returns. -/
theorem iff_open_chunk_ok (r : IffReader) (tag b0 b1 b2 b3 : Nat) (hwt : r.WellTyped)
    (htag : tag < U32) (hdepth : r.stack_pos < 64) (h : r.pos + 8 ≤ r.data_len)
    (hb : (r.data.drop r.pos).take 8 = store32 tag ++ [b0, b1, b2, b3]) :
    iff_open_chunk r tag = .ok (IffResult.Ok,
      { r with
        pos := r.pos + 8
        stack := r.stack.set r.stack_pos
          { start := r.pos + 8, end_ := add32 (r.pos + 8) (be32 b0 b1 b2 b3), tag := tag }
        stack_pos := r.stack_pos + 1 }) := by
  have hb0 : b0 < 256 := byte_lt_of_mem_window hwt (p := r.pos) (n := 8) (by simp [hb])
  have hb1 : b1 < 256 := byte_lt_of_mem_window hwt (p := r.pos) (n := 8) (by simp [hb])
  have hb2 : b2 < 256 := byte_lt_of_mem_window hwt (p := r.pos) (n := 8) (by simp [hb])
  have hb3 : b3 < 256 := byte_lt_of_mem_window hwt (p := r.pos) (n := 8) (by simp [hb])
  have e0 : load32 ((r.data.drop r.pos).take 8) 0 = tag := by
    rw [hb]; exact load32_store32 htag _
  have e4 : _byteswap_ulong (load32 ((r.data.drop r.pos).take 8) 4) = be32 b0 b1 b2 b3 := by
    rw [hb]
    exact (congrArg _ (load32_skip4 _ _ _ _ _ 0)).trans (byteswap_load32 hb0 hb1 hb2 hb3 _)
  rw [iff_open_chunk_eq r tag hwt h, e0, e4]
  simp only [ne_eq, not_true_eq_false, if_false, show ¬ r.stack_pos ≥ 64 by omega]

/-- A matching FORM header inside the buffer, below the depth limit: the exact
reader `iff_open_form` returns. -/
theorem iff_open_form_ok (r : IffReader) (tag b0 b1 b2 b3 : Nat) (hwt : r.WellTyped)
    (htag : tag < U32) (hdepth : r.stack_pos < 64) (h : r.pos + 12 ≤ r.data_len)
    (hb : (r.data.drop r.pos).take 12
      = ['F', 'O', 'R', 'M'].map Char.toNat ++ [b0, b1, b2, b3] ++ store32 tag) :
    iff_open_form r tag = .ok (IffResult.Ok,
      { r with
        pos := r.pos + 12
        stack := r.stack.set r.stack_pos
          { start := r.pos + 12
            end_ := sub32 (add32 (r.pos + 12) (be32 b0 b1 b2 b3)) 4
            tag := tag }
        stack_pos := r.stack_pos + 1 }) := by
  have hb0 : b0 < 256 := byte_lt_of_mem_window hwt (p := r.pos) (n := 12) (by simp [hb])
  have hb1 : b1 < 256 := byte_lt_of_mem_window hwt (p := r.pos) (n := 12) (by simp [hb])
  have hb2 : b2 < 256 := byte_lt_of_mem_window hwt (p := r.pos) (n := 12) (by simp [hb])
  have hb3 : b3 < 256 := byte_lt_of_mem_window hwt (p := r.pos) (n := 12) (by simp [hb])
  have e0 : load32 ((r.data.drop r.pos).take 12) 0 = ae_iff_tag ['F', 'O', 'R', 'M'] := by
    rw [hb, ae_iff_tag_FORM, form_marker]
    exact load32_zero 70 79 82 77 _
  have e4 : _byteswap_ulong (load32 ((r.data.drop r.pos).take 12) 4) = be32 b0 b1 b2 b3 := by
    rw [hb, form_marker]
    exact (congrArg _ (load32_skip4 70 79 82 77 _ 0)).trans (byteswap_load32 hb0 hb1 hb2 hb3 _)
  have e8 : load32 ((r.data.drop r.pos).take 12) 8 = tag := by
    rw [hb, form_marker]
    exact ((load32_skip4 70 79 82 77 _ 4).trans (load32_skip4 b0 b1 b2 b3 _ 0)).trans
      (by simpa using load32_store32 htag [])
  rw [iff_open_form_eq r tag hwt h, e0, e4, e8]
  simp only [ne_eq, not_true_eq_false, if_false, show ¬ r.stack_pos ≥ 64 by omega]

/-- What a successful `iff_read_internal` did. -/
theorem iff_read_internal_inv {r r1 : IffReader} {size : Nat} {res : IffResult} {dst : List Nat}
    (h : iff_read_internal r size = .ok (res, r1, dst)) :
    (res = IffResult.ReadPastEof ∧ r1 = r ∧ size > sub32 r.data_len r.pos)
      ∨ (res = IffResult.Ok ∧ r1 = { r with pos := add32 r.pos size }
          ∧ memcpy r.data r.pos size = some dst ∧ size ≤ sub32 r.data_len r.pos) := by
  unfold iff_read_internal at h
  by_cases hc : size > sub32 r.data_len r.pos
  · simp only [hc, if_true, Except.ok.injEq, Prod.mk.injEq] at h
    exact Or.inl ⟨h.1.symm, h.2.1.symm, hc⟩
  · simp only [hc, if_false] at h
    cases hm : memcpy r.data r.pos size with
    | none => simp [hm] at h
    | some bytes =>
      simp only [hm, Except.ok.injEq, Prod.mk.injEq] at h
      exact Or.inr ⟨h.1.symm, h.2.1.symm, by rw [h.2.2], by omega⟩

/-- What a successful `iff_open_chunk` did. -/
theorem iff_open_chunk_inv {r r1 : IffReader} {tag : Nat}
    (h : iff_open_chunk r tag = .ok (IffResult.Ok, r1)) :
    ∃ bytes, memcpy r.data r.pos 8 = some bytes ∧ load32 bytes 0 = tag
      ∧ r.stack_pos < 64 ∧ r.stack_pos < r.stack.length
      ∧ r1 = { r with
          pos := add32 r.pos 8
          stack := r.stack.set r.stack_pos
            { start := add32 r.pos 8
              end_ := add32 (add32 r.pos 8) (_byteswap_ulong (load32 bytes 4))
              tag := tag }
          stack_pos := add32 r.stack_pos 1 } := by
  unfold iff_open_chunk at h
  cases hr : iff_read_internal r 8 with
  | error t => simp [hr] at h
  | ok v =>
    obtain ⟨res, r0, bytes⟩ := v
    rcases iff_read_internal_inv hr with ⟨rfl, rfl, -⟩ | ⟨rfl, rfl, hm, -⟩
    · simp [hr] at h
    · simp only [hr, ne_eq, not_true_eq_false, if_false, STACK_LEN] at h
      by_cases h1 : load32 bytes 0 = tag
      · by_cases h2 : r.stack_pos ≥ 64
        · simp [h1, h2] at h
        · by_cases h3 : r.stack_pos < r.stack.length
          · simp only [h1, h2, h3, not_true_eq_false, if_true, if_false, Except.ok.injEq,
              Prod.mk.injEq, true_and] at h
            exact ⟨bytes, hm, h1, by omega, h3, h.symm⟩
          · simp [h1, h2, h3] at h
      · simp [h1] at h

/-- What a successful `iff_open_form` did. -/
theorem iff_open_form_inv {r r1 : IffReader} {tag : Nat}
    (h : iff_open_form r tag = .ok (IffResult.Ok, r1)) :
    ∃ bytes, memcpy r.data r.pos 12 = some bytes
      ∧ load32 bytes 0 = ae_iff_tag ['F', 'O', 'R', 'M'] ∧ load32 bytes 8 = tag
      ∧ r.stack_pos < 64 ∧ r.stack_pos < r.stack.length
      ∧ r1 = { r with
          pos := add32 r.pos 12
          stack := r.stack.set r.stack_pos
            { start := add32 r.pos 12
              end_ := sub32 (add32 (add32 r.pos 12) (_byteswap_ulong (load32 bytes 4))) 4
              tag := tag }
          stack_pos := add32 r.stack_pos 1 } := by
  unfold iff_open_form at h
  cases hr : iff_read_internal r 12 with
  | error t => simp [hr] at h
  | ok v =>
    obtain ⟨res, r0, bytes⟩ := v
    rcases iff_read_internal_inv hr with ⟨rfl, rfl, -⟩ | ⟨rfl, rfl, hm, -⟩
    · simp [hr] at h
    · simp only [hr, ne_eq, not_true_eq_false, if_false, STACK_LEN] at h
      by_cases h1 : load32 bytes 0 = ae_iff_tag ['F', 'O', 'R', 'M']
      · by_cases h2 : load32 bytes 8 = tag
        · by_cases h3 : r.stack_pos ≥ 64
          · simp [h1, h2, h3] at h
          · by_cases h4 : r.stack_pos < r.stack.length
            · simp only [h1, h2, h3, h4, not_true_eq_false, if_true, if_false,
                Except.ok.injEq, Prod.mk.injEq, true_and] at h
              exact ⟨bytes, hm, h1, h2, by omega, h4, h.symm⟩
            · simp [h1, h2, h3, h4] at h
        · simp [h1, h2] at h
      · simp [h1] at h

/-- Closing right after a push at depth `d < 64`: the pushed frame is the one
popped, and the close succeeds exactly when the cursor is not past its end. -/
theorem iff_close_after_push (r : IffReader) (node : IffStackNode) (p : Nat)
    (hd : r.stack_pos < 64) (hl : r.stack_pos < r.stack.length) :
    iff_close_chunk
        { r with pos := p, stack := r.stack.set r.stack_pos node,
                 stack_pos := add32 r.stack_pos 1 } node.tag
      = if p > node.end_ then
          .ok (IffResult.ReaderError,
            { r with pos := p, stack := r.stack.set r.stack_pos node })
        else
          .ok (IffResult.Ok,
            { r with pos := node.end_, stack := r.stack.set r.stack_pos node }) := by
  have h1 : add32 r.stack_pos 1 = r.stack_pos + 1 := add32_of_lt (by unfold U32; omega)
  have h2 : sub32 (r.stack_pos + 1) 1 = r.stack_pos := by
    rw [sub32_of_le (by omega) (by unfold U32; omega)]; omega
  unfold iff_close_chunk
  simp only [h1, h2, Nat.succ_ne_zero, if_false, List.getElem?_set_self hl, ne_eq,
    not_true_eq_false]
  split_ifs <;> first | rfl | omega

/-- The bytes a successful `memcpy` copied. -/
theorem memcpy_inv {data bytes : List Nat} {pos size : Nat}
    (h : memcpy data pos size = some bytes) :
    bytes = (data.drop pos).take size ∧ pos + size ≤ data.length := by
  unfold memcpy at h
  split_ifs at h with hc
  exact ⟨(Option.some.inj h).symm, hc⟩

/-- Four `uint8_t` bytes are recovered from their little-endian load. -/
theorem store32_load32 {a b c d : Nat} (ha : a < 256) (hb : b < 256) (hc : c < 256)
    (hd : d < 256) (rest : List Nat) :
    store32 (load32 (a :: b :: c :: d :: rest) 0) = [a, b, c, d] := by
  simp only [load32, store32, List.getD_cons_zero, List.getD_cons_succ, Nat.zero_add,
    List.cons.injEq, and_true]
  refine ⟨?_, ?_, ?_, ?_⟩ <;> omega

/-- The big-endian value of the bytes of a size field is the size. -/
theorem be32_size_bytes {x : Nat} (hx : x < U32) :
    be32 (x / 16777216 % 256) (x / 65536 % 256) (x / 256 % 256) (x % 256) = x := by
  unfold be32; unfold U32 at hx; omega

/-- Chunks laid out from `p` to `e` end no earlier than they start, and there
are at most `(e - p) / 8` of them. -/
theorem chunks_span_le {data : List Nat} :
    ∀ (hdrs : List (Nat × Nat)) (p e : Nat), chunks_span data hdrs p e →
      p + 8 * hdrs.length ≤ e
  | [], p, e, h => by simp [chunks_span] at h; simp [h]
  | (tag, size) :: rest, p, e, h => by
    obtain ⟨-, -, -, hrest⟩ := h
    have := chunks_span_le rest _ e hrest
    simp only [List.length_cons]
    omega

/-- A header window of 8 bytes lies inside the addressable memory. -/
theorem window_fits {data bs : List Nat} {p : Nat} (h : (data.drop p).take 8 = bs)
    (hl : bs.length = 8) : p + 8 ≤ data.length := by
  have := congrArg List.length h
  simp only [List.length_take, List.length_drop, hl] at this
  omega

/-- The size field of a header window. -/
theorem window_size_field {data : List Nat} {p a b c d e f g h : Nat}
    (hw : (data.drop p).take 8 = [a, b, c, d, e, f, g, h]) :
    (data.drop (p + 4)).take 4 = [e, f, g, h] := by
  have h1 : (data.drop (p + 4)).take 4 = ((data.drop p).take 8).drop 4 := by
    rw [List.drop_take, List.drop_drop]
  rw [h1, hw]
  rfl

/-- The scan loop counts the chunks laid out from `curr` to `end_`. -/
theorem remaining_children_loop_count {data : List Nat} {end_ : Nat} (he : end_ < U32) :
    ∀ (hdrs : List (Nat × Nat)) (fuel curr count : Nat),
      chunks_span data hdrs curr end_ → hdrs.length ≤ fuel → count + hdrs.length < U32 →
      remaining_children_loop data end_ fuel curr count = .ok (count + hdrs.length)
  | [], fuel, curr, count, h, _, _ => by
    simp only [chunks_span] at h
    cases fuel <;> simp [remaining_children_loop, h]
  | (tag, size) :: rest, fuel, curr, count, h, hf, hc => by
    obtain ⟨htag, hsize, hw, hrest⟩ := h
    have hle := chunks_span_le rest _ end_ hrest
    simp only [List.length_cons] at hf hc
    obtain ⟨fuel, rfl⟩ : ∃ n, fuel = n + 1 := ⟨fuel - 1, by omega⟩
    have hfit := window_fits hw (by simp [store32, size_bytes])
    have hsz := window_size_field (by simpa [store32, size_bytes] using hw)
    have h4 : add32 curr 4 = curr + 4 := add32_of_lt (by omega)
    have hm : memcpy data (curr + 4) 4 = some (size_bytes size) := by
      rw [memcpy_of_le (by omega), hsz]; rfl
    have hlen : _byteswap_ulong (load32 (size_bytes size) 0) = size := by
      have := @byteswap_load32 (size / 16777216 % 256) (size / 65536 % 256)
        (size / 256 % 256) (size % 256) (by omega) (by omega) (by omega) (by omega) []
      rw [be32_size_bytes hsize] at this
      exact this
    have h8 : add32 curr (add32 size 8) = curr + 8 + size := by
      unfold add32 U32 at *; omega
    have h1 : add32 count 1 = count + 1 := add32_of_lt (by omega)
    have ih := remaining_children_loop_count he rest fuel (curr + 8 + size) (count + 1) hrest
      (by omega) (by omega)
    rw [remaining_children_loop, if_pos (by omega), h4, hm]
    simp only [hlen, h8, h1, ih, List.length_cons]
    congr 1
    omega

/-- Overwriting one frame and moving the cursor keeps a reader well typed. -/
theorem wellTyped_set_frame {r : IffReader} (hwt : r.WellTyped) {p i : Nat}
    {node : IffStackNode} (hp : p < U32) (hn : node.WellTyped) :
    IffReader.WellTyped { r with pos := p, stack := r.stack.set i node } := by
  obtain ⟨-, hl, hs, hlen, hst, hby, hdl⟩ := hwt
  refine ⟨hp, hl, hs, by simpa using hlen, ?_, hby, hdl⟩
  intro n hmem
  rcases List.mem_or_eq_of_mem_set hmem with h | rfl
  · exact hst n h
  · exact hn

/-- One child consumed: `iff_open_chunk` then `iff_close_chunk` on a chunk that
lies inside the buffer moves the cursor past it and only overwrites the stack
slot above the open frames. -/
theorem open_close_chunk (r : IffReader) (tag size : Nat) (hwt : r.WellTyped)
    (htag : tag < U32) (hsize : size < U32) (hdepth : r.stack_pos < 64)
    (hw : (r.data.drop r.pos).take 8 = store32 tag ++ size_bytes size)
    (hfit : r.pos + 8 + size ≤ r.data_len) :
    iff_open_chunk r tag = .ok (IffResult.Ok,
        { r with
          pos := r.pos + 8
          stack := r.stack.set r.stack_pos
            { start := r.pos + 8, end_ := r.pos + 8 + size, tag := tag }
          stack_pos := add32 r.stack_pos 1 })
      ∧ iff_close_chunk
          { r with
            pos := r.pos + 8
            stack := r.stack.set r.stack_pos
              { start := r.pos + 8, end_ := r.pos + 8 + size, tag := tag }
            stack_pos := add32 r.stack_pos 1 } tag
        = .ok (IffResult.Ok,
          { r with
            pos := r.pos + 8 + size
            stack := r.stack.set r.stack_pos
              { start := r.pos + 8, end_ := r.pos + 8 + size, tag := tag } }) := by
  have hl : r.data_len < U32 := hwt.2.1
  have hlen : r.stack.length = 64 := hwt.2.2.2.1
  have hopen := iff_open_chunk_ok r tag _ _ _ _ hwt htag hdepth (by omega) hw
  rw [be32_size_bytes hsize, add32_of_lt (show r.pos + 8 + size < U32 by omega),
    ← add32_of_lt (show r.stack_pos + 1 < U32 by unfold U32; omega)] at hopen
  have hclose := iff_close_after_push r
    { start := r.pos + 8, end_ := r.pos + 8 + size, tag := tag } (r.pos + 8) hdepth (by omega)
  rw [if_neg (by simp only [gt_iff_lt, not_lt]; omega)] at hclose
  exact ⟨hopen, hclose⟩

/-- Consuming the chunks laid out from the cursor to `e`, below depth 64 and
inside the buffer, succeeds, ends with the cursor at `e` and keeps the depth,
the buffer and every open frame. -/
theorem walk_children_span :
    ∀ (hdrs : List (Nat × Nat)) (r : IffReader) (e : Nat),
      r.WellTyped → r.stack_pos < 64 → chunks_span r.data hdrs r.pos e → e ≤ r.data_len →
      ∃ r2, walk_children (hdrs.map Prod.fst) r = .ok (IffResult.Ok, r2)
        ∧ r2.pos = e ∧ r2.stack_pos = r.stack_pos ∧ r2.data = r.data
        ∧ r2.data_len = r.data_len ∧ r2.WellTyped
        ∧ (∀ i, i < r.stack_pos → r2.stack[i]? = r.stack[i]?)
  | [], r, e, hwt, _, h, _ => by
    simp only [chunks_span] at h
    exact ⟨r, rfl, h, rfl, rfl, rfl, hwt, fun _ _ => rfl⟩
  | (tag, size) :: rest, r, e, hwt, hd, h, he => by
    obtain ⟨htag, hsize, hw, hrest⟩ := h
    have hle := chunks_span_le rest _ e hrest
    have hl : r.data_len < U32 := hwt.2.1
    obtain ⟨hopen, hclose⟩ := open_close_chunk r tag size hwt htag hsize hd hw (by omega)
    have hwt2 := @wellTyped_set_frame r hwt (r.pos + 8 + size) r.stack_pos
      { start := r.pos + 8, end_ := r.pos + 8 + size, tag := tag }
      (by omega) ⟨by simp only; omega, by simp only; omega, htag⟩
    obtain ⟨r2, hwalk, hp, hs, hdat, hdl, hwt', hst⟩ :=
      walk_children_span rest _ e hwt2 hd hrest he
    refine ⟨r2, ?_, hp, hs, hdat, hdl, hwt', ?_⟩
    · simp only [List.map_cons, walk_children, hopen, hclose]
      exact hwalk
    · intro i hi
      rw [hst i hi]
      exact List.getElem?_set_ne (by omega)

/-- A layout of chunks splits after its first `j` chunks. -/
theorem chunks_span_split {data : List Nat} :
    ∀ (hdrs : List (Nat × Nat)) (j p e : Nat), chunks_span data hdrs p e →
      ∃ q, chunks_span data (hdrs.take j) p q ∧ chunks_span data (hdrs.drop j) q e
  | hdrs, 0, p, e, h => ⟨p, by simp [chunks_span], by simpa using h⟩
  | [], j + 1, p, e, h => ⟨p, by simp [chunks_span], by simpa using h⟩
  | (tag, size) :: rest, j + 1, p, e, h => by
    obtain ⟨htag, hsize, hw, hrest⟩ := h
    obtain ⟨q, h1, h2⟩ := chunks_span_split rest j _ e hrest
    exact ⟨q, ⟨htag, hsize, hw, h1⟩, h2⟩

/-- The count of `iff_get_remaining_children` when the bytes from the cursor to
the top frame's end are chunks back to back. -/
theorem remaining_children_span (r : IffReader) (top : IffStackNode)
    (hdrs : List (Nat × Nat)) (fuel : Nat) (hwt : r.WellTyped) (hd : 0 < r.stack_pos)
    (htop : r.stack[r.stack_pos - 1]? = some top) (hstart : top.start ≤ r.pos)
    (hspan : chunks_span r.data hdrs r.pos top.end_) (hfuel : hdrs.length ≤ fuel) :
    iff_get_remaining_children fuel r = .ok hdrs.length := by
  have hs : r.stack_pos < U32 := hwt.2.2.1
  have he : top.end_ < U32 := (hwt.2.2.2.2.1 top (List.getElem?_mem htop)).2.1
  have hle := chunks_span_le hdrs _ _ hspan
  have h0 : sub32 r.stack_pos 1 = r.stack_pos - 1 := sub32_of_le hd hs
  have hloop := remaining_children_loop_count he hdrs fuel r.pos 0 hspan hfuel (by omega)
  unfold iff_get_remaining_children
  simp only [show r.stack_pos ≠ 0 by omega, if_false, h0, htop]
  rw [if_neg (by omega), hloop, Nat.zero_add]

/-- A read that stays inside the top frame and inside the addressable memory
succeeds and only moves the cursor. -/
theorem iff_read_of_fits (r : IffReader) (node : IffStackNode) (size : Nat)
    (hd : 0 < r.stack_pos) (hs : r.stack_pos < U32)
    (htop : r.stack[r.stack_pos - 1]? = some node) (hn : node.end_ < U32)
    (hfit : r.pos + size ≤ node.end_) (hmem : r.pos + size ≤ r.data.length) :
    iff_read r size
      = .ok (IffResult.Ok, { r with pos := r.pos + size }, (r.data.drop r.pos).take size) := by
  have h0 : sub32 r.stack_pos 1 = r.stack_pos - 1 := sub32_of_le hd hs
  have h1 : sub32 node.end_ r.pos = node.end_ - r.pos := sub32_of_le (by omega) hn
  have h2 : ¬ size > node.end_ - r.pos := by omega
  have h3 : add32 r.pos size = r.pos + size := add32_of_lt (by omega)
  have h4 : r.stack_pos ≠ 0 := by omega
  simp [iff_read, h0, h1, h2, h3, h4, htop, memcpy_of_le hmem]

/-- Writing at index `wp` only changes the prefix of length `wp + 1` in its
last place. -/
theorem take_succ_set (str : List Nat) (wp b : Nat) (h : wp < str.length) :
    (str.set wp b).take (wp + 1) = str.take wp ++ [b] := by
  apply List.ext_getElem?
  intro i
  by_cases hi : i < wp
  · rw [List.getElem?_take_of_lt (by omega), List.getElem?_set_ne (by omega),
      List.getElem?_append_left (by simp only [List.length_take]; omega),
      List.getElem?_take_of_lt hi]
  · by_cases hi2 : i = wp
    · subst hi2
      rw [List.getElem?_take_of_lt (by omega), List.getElem?_set_self h,
        List.getElem?_append_right (by simp only [List.length_take]; omega)]
      simp only [List.length_take]
      rw [show i - min i str.length = 0 by omega]
      rfl
    · rw [List.getElem?_take_eq_none (by omega),
        List.getElem?_append_right (by simp only [List.length_take]; omega)]
      simp only [List.length_take]
      rw [List.getElem?_eq_none (by simp only [List.length_singleton]; omega)]

/-- The string loop on `n` non-zero bytes followed by a zero byte: the bytes
are copied to the destination from `wp` on and the loop stops at the zero. -/
theorem read_string_loop_ok (data : List Nat) :
    ∀ (n fuel : Nat) (str : List Nat) (pos wp : Nat),
      n ≤ fuel → pos + n < U32 → wp + n < U32 → wp + n ≤ str.length →
      (∀ b ∈ (data.drop pos).take n, b ≠ 0 ∧ b < 256) → data[pos + n]? = some 0 →
      read_string_loop data fuel str pos wp
        = .ok (str.take wp ++ (data.drop pos).take n ++ str.drop (wp + n), pos + n)
  | 0, fuel, str, pos, wp, _, _, _, _, _, hz => by
    have hz0 : data[pos]? = some 0 := by simpa using hz
    cases fuel <;> simp [read_string_loop, hz0]
  | n + 1, fuel, str, pos, wp, hf, hp, hw, hs, hnz, hz => by
    obtain ⟨fuel, rfl⟩ : ∃ k, fuel = k + 1 := ⟨fuel - 1, by omega⟩
    have hlt : pos < data.length := by
      have := (List.getElem?_eq_some.mp hz).1
      omega
    have hd : data.drop pos = data[pos] :: data.drop (pos + 1) := List.drop_eq_getElem_cons hlt
    have hb := hnz data[pos] (by rw [hd]; simp only [List.take_succ_cons, List.mem_cons, true_or])
    have hrest : ∀ b ∈ (data.drop (pos + 1)).take n, b ≠ 0 ∧ b < 256 := by
      intro b hb
      exact hnz b (by rw [hd]; simp only [List.take_succ_cons, List.mem_cons, hb, or_true])
    have hmod : data[pos] % 256 = data[pos] := Nat.mod_eq_of_lt hb.2
    have ih := read_string_loop_ok data n fuel (str.set wp data[pos]) (pos + 1) (wp + 1)
      (by omega) (by omega) (by omega) (by simp only [List.length_set]; omega) hrest
      (by rw [← hz]; congr 1; omega)
    rw [read_string_loop, List.getElem?_eq_getElem hlt]
    simp only [hmod, ne_eq, hb.1, not_false_eq_true, if_true, show wp < str.length by omega,
      add32_of_lt (show pos + 1 < U32 by omega), add32_of_lt (show wp + 1 < U32 by omega), ih]
    rw [take_succ_set str wp _ (by omega), List.drop_set_of_lt _ _ (by omega), hd]
    simp only [List.take_succ_cons, List.append_assoc, List.singleton_append, List.cons_append,
      List.nil_append]
    rw [show wp + 1 + n = wp + (n + 1) by omega, show pos + 1 + n = pos + (n + 1) by omega]

/-- What any returning `iff_open_chunk` leaves of the depth, the frame array and
the buffer. -/
theorem iff_open_chunk_shape {r r2 : IffReader} {tag : Nat} {res : IffResult}
    (h : iff_open_chunk r tag = .ok (res, r2)) :
    r2.stack.length = r.stack.length ∧ r2.data = r.data ∧ r2.data_len = r.data_len
      ∧ ((res ≠ IffResult.Ok ∧ r2.stack_pos = r.stack_pos ∧ r2.stack = r.stack)
        ∨ (res = IffResult.Ok ∧ r.stack_pos < 64 ∧ r2.stack_pos = r.stack_pos + 1)) := by
  by_cases hres : res = IffResult.Ok
  · subst hres
    obtain ⟨bytes, -, -, hd, -, rfl⟩ := iff_open_chunk_inv h
    refine ⟨by simp, rfl, rfl, Or.inr ⟨rfl, hd, ?_⟩⟩
    exact add32_of_lt (by unfold U32; omega)
  · unfold iff_open_chunk at h
    cases hr : iff_read_internal r 8 with
    | error t => simp [hr] at h
    | ok v =>
      obtain ⟨res0, r0, bytes⟩ := v
      rcases iff_read_internal_inv hr with ⟨rfl, rfl, -⟩ | ⟨rfl, rfl, -, -⟩
      · simp only [hr, ne_eq, reduceCtorEq, not_false_eq_true, if_true, Except.ok.injEq,
          Prod.mk.injEq] at h
        obtain ⟨rfl, rfl⟩ := h
        exact ⟨rfl, rfl, rfl, Or.inl ⟨hres, rfl, rfl⟩⟩
      · simp only [hr, ne_eq, not_true_eq_false, if_false] at h
        split_ifs at h <;>
          (simp only [Except.ok.injEq, Prod.mk.injEq] at h
           obtain ⟨rfl, rfl⟩ := h
           first
           | exact ⟨rfl, rfl, rfl, Or.inl ⟨hres, rfl, rfl⟩⟩
           | exact absurd rfl hres)

/-- What any returning `iff_open_form` leaves of the depth, the frame array and
the buffer. -/
theorem iff_open_form_shape {r r2 : IffReader} {tag : Nat} {res : IffResult}
    (h : iff_open_form r tag = .ok (res, r2)) :
    r2.stack.length = r.stack.length ∧ r2.data = r.data ∧ r2.data_len = r.data_len
      ∧ ((res ≠ IffResult.Ok ∧ r2.stack_pos = r.stack_pos ∧ r2.stack = r.stack)
        ∨ (res = IffResult.Ok ∧ r.stack_pos < 64 ∧ r2.stack_pos = r.stack_pos + 1)) := by
  by_cases hres : res = IffResult.Ok
  · subst hres
    obtain ⟨bytes, -, -, -, hd, -, rfl⟩ := iff_open_form_inv h
    refine ⟨by simp, rfl, rfl, Or.inr ⟨rfl, hd, ?_⟩⟩
    exact add32_of_lt (by unfold U32; omega)
  · unfold iff_open_form at h
    cases hr : iff_read_internal r 12 with
    | error t => simp [hr] at h
    | ok v =>
      obtain ⟨res0, r0, bytes⟩ := v
      rcases iff_read_internal_inv hr with ⟨rfl, rfl, -⟩ | ⟨rfl, rfl, -, -⟩
      · simp only [hr, ne_eq, reduceCtorEq, not_false_eq_true, if_true, Except.ok.injEq,
          Prod.mk.injEq] at h
        obtain ⟨rfl, rfl⟩ := h
        exact ⟨rfl, rfl, rfl, Or.inl ⟨hres, rfl, rfl⟩⟩
      · simp only [hr, ne_eq, not_true_eq_false, if_false] at h
        split_ifs at h <;>
          (simp only [Except.ok.injEq, Prod.mk.injEq] at h
           obtain ⟨rfl, rfl⟩ := h
           first
           | exact ⟨rfl, rfl, rfl, Or.inl ⟨hres, rfl, rfl⟩⟩
           | exact absurd rfl hres)

/-- What any returning `iff_read` did: a failure changes nothing, a success
passed the frame check, copied `size` addressable bytes and moved the cursor. -/
theorem iff_read_inv {r r2 : IffReader} {size : Nat} {res : IffResult} {dst : List Nat}
    (h : iff_read r size = .ok (res, r2, dst)) :
    (res ≠ IffResult.Ok ∧ r2 = r)
      ∨ (res = IffResult.Ok ∧ r.stack_pos ≠ 0 ∧ r2 = { r with pos := add32 r.pos size }
          ∧ memcpy r.data r.pos size = some dst
          ∧ ∃ node, r.stack[sub32 r.stack_pos 1]? = some node
            ∧ size ≤ sub32 node.end_ r.pos) := by
  unfold iff_read at h
  by_cases h0 : r.stack_pos = 0
  · simp only [h0, if_true, Except.ok.injEq, Prod.mk.injEq] at h
    exact Or.inl ⟨by rw [← h.1]; simp, h.2.1.symm⟩
  · simp only [h0, if_false] at h
    cases hn : r.stack[sub32 r.stack_pos 1]? with
    | none => simp [hn] at h
    | some node =>
      simp only [hn] at h
      by_cases hc : size > sub32 node.end_ r.pos
      · simp only [hc, if_true, Except.ok.injEq, Prod.mk.injEq] at h
        exact Or.inl ⟨by rw [← h.1]; simp, h.2.1.symm⟩
      · simp only [hc, if_false] at h
        cases hm : memcpy r.data r.pos size with
        | none => simp [hm] at h
        | some bytes =>
          simp only [hm, Except.ok.injEq, Prod.mk.injEq] at h
          exact Or.inr ⟨h.1.symm, h0, h.2.1.symm, by rw [h.2.2], node, rfl, by omega⟩

/-- What any returning `iff_read_string` did. -/
theorem iff_read_string_inv {r r2 : IffReader} {fuel : Nat} {res : IffResult}
    {str str2 : String8} (h : iff_read_string fuel r str = .ok (res, r2, str2)) :
    (res = IffResult.StackExhausted ∧ r.stack_pos = 0 ∧ r2 = r ∧ str2 = str)
      ∨ (res = IffResult.Ok ∧ r.stack_pos ≠ 0
          ∧ ∃ bytes pos, read_string_loop r.data fuel str.str r.pos 0 = .ok (bytes, pos)
            ∧ r2 = { r with pos := add32 pos 1 } ∧ str2 = { str with str := bytes }) := by
  unfold iff_read_string at h
  by_cases h0 : r.stack_pos = 0
  · simp only [h0, if_true, Except.ok.injEq, Prod.mk.injEq] at h
    exact Or.inl ⟨h.1.symm, h0, h.2.1.symm, h.2.2.symm⟩
  · simp only [h0, if_false] at h
    cases hl : read_string_loop r.data fuel str.str r.pos 0 with
    | error t => simp [hl] at h
    | ok v =>
      obtain ⟨bytes, pos⟩ := v
      simp only [hl, Except.ok.injEq, Prod.mk.injEq] at h
      exact Or.inr ⟨h.1.symm, h0, bytes, pos, rfl, h.2.1.symm, h.2.2.symm⟩

/-- What any returning `iff_close_chunk` did. -/
theorem iff_close_chunk_inv {r r2 : IffReader} {tag : Nat} {res : IffResult}
    (h : iff_close_chunk r tag = .ok (res, r2)) :
    (res = IffResult.StackUnderflow ∧ r.stack_pos = 0 ∧ r2 = r)
      ∨ (r.stack_pos ≠ 0 ∧ ∃ chunk, r.stack[sub32 r.stack_pos 1]? = some chunk
          ∧ ((res = IffResult.ReaderError
                ∧ r2 = { r with stack_pos := sub32 r.stack_pos 1 })
            ∨ (res = IffResult.Ok ∧ chunk.tag = tag ∧ r.pos ≤ chunk.end_
                ∧ r2 = { r with stack_pos := sub32 r.stack_pos 1, pos := chunk.end_ }))) := by
  unfold iff_close_chunk at h
  by_cases h0 : r.stack_pos = 0
  · simp only [h0, if_true, Except.ok.injEq, Prod.mk.injEq] at h
    exact Or.inl ⟨h.1.symm, h0, h.2.symm⟩
  · simp only [h0, if_false] at h
    cases hn : r.stack[sub32 r.stack_pos 1]? with
    | none => simp [hn] at h
    | some chunk =>
      simp only [hn] at h
      refine Or.inr ⟨h0, chunk, rfl, ?_⟩
      by_cases h1 : chunk.tag = tag
      · by_cases h2 : r.pos ≠ chunk.end_ ∧ r.pos > chunk.end_
        · rw [if_neg (not_not.mpr h1), if_pos h2] at h
          simp only [Except.ok.injEq, Prod.mk.injEq] at h
          exact Or.inl ⟨h.1.symm, h.2.symm⟩
        · rw [if_neg (not_not.mpr h1), if_neg h2] at h
          simp only [Except.ok.injEq, Prod.mk.injEq] at h
          exact Or.inr ⟨h.1.symm, h1, by omega, h.2.symm⟩
      · rw [if_pos h1] at h
        simp only [Except.ok.injEq, Prod.mk.injEq] at h
        exact Or.inl ⟨h.1.symm, h.2.symm⟩

/-- One call keeps the frame array's length and keeps the depth within 64. -/
theorem step_depth {op : Op} {r r2 : IffReader} {res : IffResult}
    (h : step op r = .ok (res, r2)) (hd : r.stack_pos ≤ 64) :
    r2.stack_pos ≤ 64 ∧ r2.stack.length = r.stack.length := by
  cases op with
  | open_form tag =>
    obtain ⟨hl, -, -, hc⟩ := iff_open_form_shape h
    rcases hc with ⟨-, hs, -⟩ | ⟨-, hlt, hs⟩ <;> exact ⟨by omega, hl⟩
  | open_chunk tag =>
    obtain ⟨hl, -, -, hc⟩ := iff_open_chunk_shape h
    rcases hc with ⟨-, hs, -⟩ | ⟨-, hlt, hs⟩ <;> exact ⟨by omega, hl⟩
  | read size =>
    simp only [step] at h
    cases hr : iff_read r size with
    | error t => simp [hr] at h
    | ok v =>
      obtain ⟨res0, r0, dst⟩ := v
      simp only [hr, Except.ok.injEq, Prod.mk.injEq] at h
      obtain ⟨-, rfl⟩ := h
      rcases iff_read_inv hr with ⟨-, rfl⟩ | ⟨-, -, rfl, -⟩ <;> exact ⟨hd, rfl⟩
  | read_string fuel str =>
    simp only [step] at h
    cases hr : iff_read_string fuel r str with
    | error t => simp [hr] at h
    | ok v =>
      obtain ⟨res0, r0, dst⟩ := v
      simp only [hr, Except.ok.injEq, Prod.mk.injEq] at h
      obtain ⟨-, rfl⟩ := h
      rcases iff_read_string_inv hr with ⟨-, -, rfl, -⟩ | ⟨-, -, _, _, -, rfl, -⟩ <;>
        exact ⟨hd, rfl⟩
  | close_chunk tag =>
    rcases iff_close_chunk_inv h with ⟨-, -, rfl⟩ | ⟨h0, _, -, ⟨-, rfl⟩ | ⟨-, -, -, rfl⟩⟩
    · exact ⟨hd, rfl⟩
    · exact ⟨by simp only; unfold sub32 U32; omega, rfl⟩
    · exact ⟨by simp only; unfold sub32 U32; omega, rfl⟩
  | close_form tag =>
    rcases iff_close_chunk_inv h with ⟨-, -, rfl⟩ | ⟨h0, _, -, ⟨-, rfl⟩ | ⟨-, -, -, rfl⟩⟩
    · exact ⟨hd, rfl⟩
    · exact ⟨by simp only; unfold sub32 U32; omega, rfl⟩
    · exact ⟨by simp only; unfold sub32 U32; omega, rfl⟩

/-- Every reachable reader has depth at most 64 and its 64 frame slots. -/
theorem reachable_depth {data : List Nat} {data_len : Nat} {r : IffReader}
    (h : Reachable data data_len r) : r.stack_pos ≤ 64 ∧ r.stack.length = 64 := by
  induction h with
  | init => exact ⟨by simp [iff_init], by simp [iff_init]⟩
  | call _ hs ih =>
    obtain ⟨h1, h2⟩ := step_depth hs ih.1
    exact ⟨h1, h2.trans ih.2⟩

/-- A little-endian load is a `uint32_t`. -/
theorem load32_lt (bs : List Nat) (off : Nat) : load32 bs off < U32 := by
  unfold load32 U32; omega

theorem add32_lt (a b : Nat) : add32 a b < U32 := by
  unfold add32 U32; omega

theorem sub32_lt (a b : Nat) : sub32 a b < U32 := by
  unfold sub32 U32; omega

/-- The frame in a slot that holds one. -/
theorem frame_of_getElem? {r : IffReader} {i : Nat} {f : IffStackNode}
    (h : r.stack[i]? = some f) : frame r i = f := by
  simp [frame, List.getD_eq_getElem?_getD, h]

/-- The slot lookup of a frame inside the array. -/
theorem getElem?_frame {r : IffReader} {i : Nat} (h : i < r.stack.length) :
    r.stack[i]? = some (frame r i) := by
  simp [frame, List.getD_eq_getElem?_getD, List.getElem?_eq_getElem h]

/-- Moving the cursor and the depth does not touch the frames. -/
theorem frame_same_stack {r r2 : IffReader} (h : r2.stack = r.stack) (i : Nat) :
    frame r2 i = frame r i := by
  simp [frame, h]

/-- The frames after a store into slot `k`. -/
theorem frame_set {r r2 : IffReader} {k : Nat} {node : IffStackNode}
    (h : r2.stack = r.stack.set k node) (hk : k < r.stack.length) (i : Nat) :
    frame r2 i = if i = k then node else frame r i := by
  simp only [frame, h, List.getD_eq_getElem?_getD]
  split_ifs with hik
  · subst hik
    rw [List.getElem?_set_self hk]
    rfl
  · rw [List.getElem?_set_ne (fun h => hik h.symm)]
/-- Every way `iff_open_chunk` can return: too few bytes (nothing changes), a
tag mismatch or a full stack (only the cursor moves), or a push. -/
theorem iff_open_chunk_cases {r r2 : IffReader} {tag : Nat} {res : IffResult}
    (h : iff_open_chunk r tag = .ok (res, r2)) :
    (res = IffResult.ReadPastEof ∧ r2 = r ∧ 8 > sub32 r.data_len r.pos)
      ∨ ((res = IffResult.UnexpectedTag ∨ res = IffResult.StackExhausted)
          ∧ r2 = { r with pos := add32 r.pos 8 } ∧ 8 ≤ sub32 r.data_len r.pos
          ∧ ∃ bytes, memcpy r.data r.pos 8 = some bytes)
      ∨ (res = IffResult.Ok ∧ 8 ≤ sub32 r.data_len r.pos
          ∧ ∃ bytes, memcpy r.data r.pos 8 = some bytes ∧ load32 bytes 0 = tag
            ∧ r.stack_pos < 64 ∧ r.stack_pos < r.stack.length
            ∧ r2 = { r with
                pos := add32 r.pos 8
                stack := r.stack.set r.stack_pos
                  { start := add32 r.pos 8
                    end_ := add32 (add32 r.pos 8) (_byteswap_ulong (load32 bytes 4))
                    tag := tag }
                stack_pos := add32 r.stack_pos 1 }) := by
  cases hr : iff_read_internal r 8 with
  | error t => simp [iff_open_chunk, hr] at h
  | ok v =>
    obtain ⟨res0, r0, bytes⟩ := v
    rcases iff_read_internal_inv hr with ⟨rfl, rfl, hgt⟩ | ⟨rfl, rfl, hm, hle⟩
    · simp only [iff_open_chunk, hr, ne_eq, reduceCtorEq, not_false_eq_true, if_true,
        Except.ok.injEq, Prod.mk.injEq] at h
      exact Or.inl ⟨h.1.symm, h.2.symm, hgt⟩
    · by_cases hres : res = IffResult.Ok
      · subst hres
        obtain ⟨bytes2, hm2, ht, hd, hl, rfl⟩ := iff_open_chunk_inv h
        exact Or.inr (Or.inr ⟨rfl, hle, bytes2, hm2, ht, hd, hl, rfl⟩)
      · simp only [iff_open_chunk, hr, ne_eq, not_true_eq_false, if_false] at h
        split_ifs at h <;>
          (simp only [Except.ok.injEq, Prod.mk.injEq] at h
           obtain ⟨rfl, rfl⟩ := h
           first
           | exact Or.inr (Or.inl ⟨Or.inl rfl, rfl, hle, bytes, hm⟩)
           | exact Or.inr (Or.inl ⟨Or.inr rfl, rfl, hle, bytes, hm⟩)
           | exact absurd rfl hres)

/-- Every way `iff_open_form` can return. -/
theorem iff_open_form_cases {r r2 : IffReader} {tag : Nat} {res : IffResult}
    (h : iff_open_form r tag = .ok (res, r2)) :
    (res = IffResult.ReadPastEof ∧ r2 = r ∧ 12 > sub32 r.data_len r.pos)
      ∨ ((res = IffResult.UnexpectedTag ∨ res = IffResult.StackExhausted)
          ∧ r2 = { r with pos := add32 r.pos 12 } ∧ 12 ≤ sub32 r.data_len r.pos
          ∧ ∃ bytes, memcpy r.data r.pos 12 = some bytes)
      ∨ (res = IffResult.Ok ∧ 12 ≤ sub32 r.data_len r.pos
          ∧ ∃ bytes, memcpy r.data r.pos 12 = some bytes ∧ load32 bytes 8 = tag
            ∧ r.stack_pos < 64 ∧ r.stack_pos < r.stack.length
            ∧ r2 = { r with
                pos := add32 r.pos 12
                stack := r.stack.set r.stack_pos
                  { start := add32 r.pos 12
                    end_ := sub32 (add32 (add32 r.pos 12)
                      (_byteswap_ulong (load32 bytes 4))) 4
                    tag := tag }
                stack_pos := add32 r.stack_pos 1 }) := by
  cases hr : iff_read_internal r 12 with
  | error t => simp [iff_open_form, hr] at h
  | ok v =>
    obtain ⟨res0, r0, bytes⟩ := v
    rcases iff_read_internal_inv hr with ⟨rfl, rfl, hgt⟩ | ⟨rfl, rfl, hm, hle⟩
    · simp only [iff_open_form, hr, ne_eq, reduceCtorEq, not_false_eq_true, if_true,
        Except.ok.injEq, Prod.mk.injEq] at h
      exact Or.inl ⟨h.1.symm, h.2.symm, hgt⟩
    · by_cases hres : res = IffResult.Ok
      · subst hres
        obtain ⟨bytes2, hm2, -, ht, hd, hl, rfl⟩ := iff_open_form_inv h
        exact Or.inr (Or.inr ⟨rfl, hle, bytes2, hm2, ht, hd, hl, rfl⟩)
      · simp only [iff_open_form, hr, ne_eq, not_true_eq_false, if_false] at h
        split_ifs at h <;>
          (simp only [Except.ok.injEq, Prod.mk.injEq] at h
           obtain ⟨rfl, rfl⟩ := h
           first
           | exact Or.inr (Or.inl ⟨Or.inl rfl, rfl, hle, bytes, hm⟩)
           | exact Or.inr (Or.inl ⟨Or.inr rfl, rfl, hle, bytes, hm⟩)
           | exact absurd rfl hres)

/-- Changing only the cursor and the depth, within `uint32_t`, keeps a reader
well typed. -/
theorem wellTyped_move {r : IffReader} (hwt : r.WellTyped) {p d : Nat} (hp : p < U32)
    (hd : d < U32) : IffReader.WellTyped { r with pos := p, stack_pos := d } := by
  obtain ⟨-, hl, -, hlen, hst, hby, hdl⟩ := hwt
  exact ⟨hp, hl, hd, hlen, hst, hby, hdl⟩

/-- A push within `uint32_t` keeps a reader well typed. -/
theorem wellTyped_push {r : IffReader} (hwt : r.WellTyped) {p d i : Nat}
    {node : IffStackNode} (hp : p < U32) (hd : d < U32) (hn : node.WellTyped) :
    IffReader.WellTyped { r with pos := p, stack := r.stack.set i node, stack_pos := d } := by
  obtain ⟨-, hl, -, hlen, hst, hby, hdl⟩ := hwt
  refine ⟨hp, hl, hd, by simpa using hlen, ?_, hby, hdl⟩
  intro n hmem
  rcases List.mem_or_eq_of_mem_set hmem with h | rfl
  · exact hst n h
  · exact hn

/-- Every returning call keeps the reader well typed. -/
theorem step_wellTyped {op : Op} {r r2 : IffReader} {res : IffResult} (hwt : r.WellTyped)
    (h : step op r = .ok (res, r2)) : r2.WellTyped := by
  have hp := hwt.1
  have hs := hwt.2.2.1
  cases op with
  | open_form tag =>
    rcases iff_open_form_cases h with ⟨-, rfl, -⟩ | ⟨-, rfl, -⟩ |
      ⟨-, -, bytes, -, ht, -, -, rfl⟩
    · exact hwt
    · exact wellTyped_move hwt (add32_lt _ _) hs
    · exact wellTyped_push hwt (add32_lt _ _) (add32_lt _ _)
        ⟨add32_lt _ _, sub32_lt _ _, by rw [← ht]; exact load32_lt _ _⟩
  | open_chunk tag =>
    rcases iff_open_chunk_cases h with ⟨-, rfl, -⟩ | ⟨-, rfl, -⟩ |
      ⟨-, -, bytes, -, ht, -, -, rfl⟩
    · exact hwt
    · exact wellTyped_move hwt (add32_lt _ _) hs
    · exact wellTyped_push hwt (add32_lt _ _) (add32_lt _ _)
        ⟨add32_lt _ _, add32_lt _ _, by rw [← ht]; exact load32_lt _ _⟩
  | read size =>
    simp only [step] at h
    cases hr : iff_read r size with
    | error t => simp [hr] at h
    | ok v =>
      obtain ⟨res0, r0, dst⟩ := v
      simp only [hr, Except.ok.injEq, Prod.mk.injEq] at h
      obtain ⟨-, rfl⟩ := h
      rcases iff_read_inv hr with ⟨-, rfl⟩ | ⟨-, -, rfl, -⟩
      · exact hwt
      · exact wellTyped_move hwt (add32_lt _ _) hs
  | read_string fuel str =>
    simp only [step] at h
    cases hr : iff_read_string fuel r str with
    | error t => simp [hr] at h
    | ok v =>
      obtain ⟨res0, r0, dst⟩ := v
      simp only [hr, Except.ok.injEq, Prod.mk.injEq] at h
      obtain ⟨-, rfl⟩ := h
      rcases iff_read_string_inv hr with ⟨-, -, rfl, -⟩ | ⟨-, -, _, _, -, rfl, -⟩
      · exact hwt
      · exact wellTyped_move hwt (add32_lt _ _) hs
  | close_chunk tag =>
    rcases iff_close_chunk_inv h with ⟨-, -, rfl⟩ | ⟨-, chunk, hc, ⟨-, rfl⟩ | ⟨-, -, -, rfl⟩⟩
    · exact hwt
    · exact wellTyped_move hwt hp (sub32_lt _ _)
    · exact wellTyped_move hwt (hwt.2.2.2.2.1 chunk (List.getElem?_mem hc)).2.1 (sub32_lt _ _)
  | close_form tag =>
    rcases iff_close_chunk_inv h with ⟨-, -, rfl⟩ | ⟨-, chunk, hc, ⟨-, rfl⟩ | ⟨-, -, -, rfl⟩⟩
    · exact hwt
    · exact wellTyped_move hwt hp (sub32_lt _ _)
    · exact wellTyped_move hwt (hwt.2.2.2.2.1 chunk (List.getElem?_mem hc)).2.1 (sub32_lt _ _)
/-- In a well-formed, well-typed reader with an open frame the top slot is
`depth - 1`, it holds the top frame, and the cursor and that frame lie inside
the buffer. -/
theorem wf_top {r : IffReader} (hwt : r.WellTyped) (hwf : WF r) (h0 : r.stack_pos ≠ 0) :
    sub32 r.stack_pos 1 = r.stack_pos - 1
      ∧ r.stack[r.stack_pos - 1]? = some (frame r (r.stack_pos - 1))
      ∧ (frame r (r.stack_pos - 1)).start ≤ r.pos
      ∧ r.pos ≤ (frame r (r.stack_pos - 1)).end_
      ∧ (frame r (r.stack_pos - 1)).end_ ≤ r.data_len := by
  obtain ⟨hd, hfr, -, hcur⟩ := hwf
  rw [if_neg h0] at hcur
  exact ⟨sub32_of_le (by omega) hwt.2.2.1, getElem?_frame (by rw [hwt.2.2.2.1]; omega),
    hcur.1, hcur.2, (hfr _ (by omega)).2⟩

/-- The cursor of a well-formed reader lies inside the buffer. -/
theorem wf_pos_le {r : IffReader} (hwt : r.WellTyped) (hwf : WF r) : r.pos ≤ r.data_len := by
  by_cases h0 : r.stack_pos = 0
  · have := hwf.2.2.2
    rw [if_pos h0] at this
    exact this
  · obtain ⟨-, -, -, h1, h2⟩ := wf_top hwt hwf h0
    omega

/-- A successful `iff_read` keeps a well-formed reader well formed. -/
theorem wf_read {r r2 : IffReader} {size : Nat} {dst : List Nat} (hwt : r.WellTyped)
    (hwf : WF r) (h : iff_read r size = .ok (IffResult.Ok, r2, dst)) : WF r2 := by
  rcases iff_read_inv h with ⟨hne, -⟩ | ⟨-, h0, rfl, -, node, hn, hle⟩
  · exact absurd rfl hne
  · obtain ⟨hs, htop, h1, h2, h3⟩ := wf_top hwt hwf h0
    rw [hs, htop] at hn
    obtain rfl := Option.some.inj hn
    have hl := hwt.2.1
    rw [sub32_of_le h2 (by omega)] at hle
    obtain ⟨hd, hfr, hnest, -⟩ := hwf
    refine ⟨hd, hfr, hnest, ?_⟩
    rw [if_neg h0]
    show (frame r (r.stack_pos - 1)).start ≤ add32 r.pos size
      ∧ add32 r.pos size ≤ (frame r (r.stack_pos - 1)).end_
    rw [add32_of_lt (by omega)]
    omega

/-- A successful `iff_close_chunk` keeps a well-formed reader well formed. -/
theorem wf_close {r r2 : IffReader} {tag : Nat} (hwt : r.WellTyped) (hwf : WF r)
    (h : iff_close_chunk r tag = .ok (IffResult.Ok, r2)) : WF r2 := by
  rcases iff_close_chunk_inv h with ⟨hne, -⟩ | ⟨h0, chunk, hc, ⟨hne, -⟩ | ⟨-, -, -, rfl⟩⟩
  · exact absurd hne (by simp)
  · exact absurd hne (by simp)
  · obtain ⟨hs, htop, h1, h2, h3⟩ := wf_top hwt hwf h0
    rw [hs, htop] at hc
    obtain rfl := Option.some.inj hc
    obtain ⟨hd, hfr, hnest, -⟩ := hwf
    rw [hs]
    refine ⟨by simp only; omega, fun i hi => hfr i (by simp only at hi; omega),
      fun i hi h0i => hnest i (by simp only at hi; omega) h0i, ?_⟩
    have hf := hfr (r.stack_pos - 1) (by omega)
    by_cases h1' : r.stack_pos - 1 = 0
    · rw [if_pos h1']
      exact hf.2
    · rw [if_neg h1']
      have hn := hnest (r.stack_pos - 1) (by omega) (by omega)
      show (frame r (r.stack_pos - 1 - 1)).start ≤ (frame r (r.stack_pos - 1)).end_
        ∧ (frame r (r.stack_pos - 1)).end_ ≤ (frame r (r.stack_pos - 1 - 1)).end_
      omega

/-- A push onto a well-formed reader whose frame starts at the new cursor, at or
after the old one, and meets the side condition gives a well-formed reader. -/
theorem wf_push {r r2 : IffReader} (hwt : r.WellTyped) (hwf : WF r) {node : IffStackNode}
    (hd64 : r.stack_pos < 64) (hstart : r.pos ≤ node.start) (hse : node.start ≤ node.end_)
    (hee : node.end_ ≤ enclosing_end r) (hstack : r2.stack = r.stack.set r.stack_pos node)
    (hsp : r2.stack_pos = r.stack_pos + 1) (hpos : r2.pos = node.start)
    (hdl : r2.data_len = r.data_len) : WF r2 := by
  have hlen : r.stack_pos < r.stack.length := by rw [hwt.2.2.2.1]; exact hd64
  have hfs : ∀ i, frame r2 i = if i = r.stack_pos then node else frame r i :=
    fun i => frame_set hstack hlen i
  obtain ⟨hd, hfr, hnest, hcur⟩ := hwf
  have hencl : enclosing_end r ≤ r.data_len := by
    unfold enclosing_end
    split_ifs with h0
    · exact Nat.le_refl _
    · exact (hfr _ (by omega)).2
  refine ⟨by omega, ?_, ?_, ?_⟩
  · intro i hi
    rw [hfs i, hdl]
    split_ifs with hik
    · exact ⟨hse, by omega⟩
    · exact hfr i (by omega)
  · intro i hi h0i
    rw [hfs i, hfs (i - 1), if_neg (show i - 1 ≠ r.stack_pos by omega)]
    split_ifs with hik
    · subst hik
      have h0 : r.stack_pos ≠ 0 := by omega
      rw [if_neg h0] at hcur
      unfold enclosing_end at hee
      rw [if_neg h0] at hee
      omega
    · exact hnest i (by omega) h0i
  · rw [if_neg (by omega), hfs, if_pos (by omega), hpos]
    omega
/-- The string loop that returns stops at or before any zero byte that lies at
or after its start. -/
theorem read_string_loop_stop (data : List Nat) :
    ∀ (fuel : Nat) (str : List Nat) (pos wp : Nat) (bytes : List Nat) (q i : Nat),
      read_string_loop data fuel str pos wp = .ok (bytes, q) → pos ≤ i → i < U32 →
      data[i]? = some 0 → pos ≤ q ∧ q ≤ i
  | 0, str, pos, wp, bytes, q, i, h, hi, _, _ => by
    unfold read_string_loop at h
    cases hb : data[pos]? with
    | none => simp [hb] at h
    | some b =>
      simp only [hb] at h
      split_ifs at h
      simp only [Except.ok.injEq, Prod.mk.injEq] at h
      omega
  | fuel + 1, str, pos, wp, bytes, q, i, h, hi, hu, hz => by
    unfold read_string_loop at h
    cases hb : data[pos]? with
    | none => simp [hb] at h
    | some b =>
      simp only [hb] at h
      by_cases hnz : b % 256 ≠ 0
      · rw [if_pos hnz] at h
        by_cases hw : wp < str.length
        · rw [if_pos hw] at h
          have hne : pos ≠ i := by
            rintro rfl
            rw [hz] at hb
            obtain rfl := Option.some.inj hb
            exact hnz rfl
          rw [add32_of_lt (show pos + 1 < U32 by omega)] at h
          have := read_string_loop_stop data fuel _ _ _ _ _ i h (by omega) hu hz
          omega
        · rw [if_neg hw] at h
          simp at h
      · rw [if_neg hnz] at h
        simp only [Except.ok.injEq, Prod.mk.injEq] at h
        omega

/-- A successful `iff_read_string` with a zero byte in `[cursor, top.end)` keeps
a well-formed reader well formed. -/
theorem wf_read_string {r r2 : IffReader} {fuel : Nat} {str str2 : String8}
    (hwt : r.WellTyped) (hwf : WF r)
    (h : iff_read_string fuel r str = .ok (IffResult.Ok, r2, str2))
    (hz : ∃ i, r.pos ≤ i ∧ i < (frame r (r.stack_pos - 1)).end_ ∧ r.data[i]? = some 0) :
    WF r2 := by
  rcases iff_read_string_inv h with ⟨hne, -⟩ | ⟨-, h0, bytes, q, hloop, rfl, -⟩
  · exact absurd hne (by simp)
  · obtain ⟨i, hi1, hi2, hi3⟩ := hz
    obtain ⟨-, -, h1, h2, h3⟩ := wf_top hwt hwf h0
    have hl := hwt.2.1
    obtain ⟨hq1, hq2⟩ := read_string_loop_stop r.data fuel _ _ _ _ q i hloop hi1 (by omega) hi3
    obtain ⟨hd, hfr, hnest, -⟩ := hwf
    refine ⟨hd, hfr, hnest, ?_⟩
    rw [if_neg h0]
    show (frame r (r.stack_pos - 1)).start ≤ add32 q 1
      ∧ add32 q 1 ≤ (frame r (r.stack_pos - 1)).end_
    rw [add32_of_lt (by omega)]
    omega

/-- A successful `iff_open_chunk` whose pushed frame meets the side condition
keeps a well-formed reader well formed. -/
theorem wf_open_chunk {r r2 : IffReader} {tag : Nat} (hwt : r.WellTyped) (hwf : WF r)
    (h : iff_open_chunk r tag = .ok (IffResult.Ok, r2))
    (hp : (frame r2 r.stack_pos).start ≤ (frame r2 r.stack_pos).end_
      ∧ (frame r2 r.stack_pos).end_ ≤ enclosing_end r) : WF r2 := by
  rcases iff_open_chunk_cases h with ⟨hne, -⟩ | ⟨hne, -⟩ | ⟨-, hle, bytes, -, -, hd, hl, hr2⟩
  · exact absurd hne (by simp)
  · rcases hne with hne | hne <;> exact absurd hne (by simp)
  · have hpos := wf_pos_le hwt hwf
    rw [sub32_of_le hpos hwt.2.1] at hle
    have h8 : add32 r.pos 8 = r.pos + 8 := add32_of_lt (by have := hwt.2.1; omega)
    have hstack := congrArg IffReader.stack hr2
    have hsp := congrArg IffReader.stack_pos hr2
    have hps := congrArg IffReader.pos hr2
    have hdl := congrArg IffReader.data_len hr2
    simp only at hstack hsp hps hdl
    have hf := frame_set hstack hl r.stack_pos
    rw [if_pos rfl] at hf
    rw [hf] at hp
    rw [add32_of_lt (show r.stack_pos + 1 < U32 by unfold U32; omega)] at hsp
    exact wf_push hwt hwf hd (by simp only; omega) hp.1 hp.2 hstack hsp hps hdl

/-- A successful `iff_open_form` whose pushed frame meets the side condition
keeps a well-formed reader well formed. -/
theorem wf_open_form {r r2 : IffReader} {tag : Nat} (hwt : r.WellTyped) (hwf : WF r)
    (h : iff_open_form r tag = .ok (IffResult.Ok, r2))
    (hp : (frame r2 r.stack_pos).start ≤ (frame r2 r.stack_pos).end_
      ∧ (frame r2 r.stack_pos).end_ ≤ enclosing_end r) : WF r2 := by
  rcases iff_open_form_cases h with ⟨hne, -⟩ | ⟨hne, -⟩ | ⟨-, hle, bytes, -, -, hd, hl, hr2⟩
  · exact absurd hne (by simp)
  · rcases hne with hne | hne <;> exact absurd hne (by simp)
  · have hpos := wf_pos_le hwt hwf
    rw [sub32_of_le hpos hwt.2.1] at hle
    have h8 : add32 r.pos 12 = r.pos + 12 := add32_of_lt (by have := hwt.2.1; omega)
    have hstack := congrArg IffReader.stack hr2
    have hsp := congrArg IffReader.stack_pos hr2
    have hps := congrArg IffReader.pos hr2
    have hdl := congrArg IffReader.data_len hr2
    simp only at hstack hsp hps hdl
    have hf := frame_set hstack hl r.stack_pos
    rw [if_pos rfl] at hf
    rw [hf] at hp
    rw [add32_of_lt (show r.stack_pos + 1 < U32 by unfold U32; omega)] at hsp
    exact wf_push hwt hwf hd (by simp only; omega) hp.1 hp.2 hstack hsp hps hdl

/-- One successful call that meets its side condition keeps a well-typed reader
well formed. -/
theorem step_wf {op : Op} {r r2 : IffReader} (hwt : r.WellTyped) (hwf : WF r)
    (hstep : step op r = .ok (IffResult.Ok, r2)) (hprov : proviso op r r2) : WF r2 := by
  cases op with
  | open_form tag => exact wf_open_form hwt hwf hstep hprov
  | open_chunk tag => exact wf_open_chunk hwt hwf hstep hprov
  | read size =>
    simp only [step] at hstep
    cases hr : iff_read r size with
    | error t => simp [hr] at hstep
    | ok v =>
      obtain ⟨res0, r0, dst⟩ := v
      simp only [hr, Except.ok.injEq, Prod.mk.injEq] at hstep
      obtain ⟨rfl, rfl⟩ := hstep
      exact wf_read hwt hwf hr
  | read_string fuel str =>
    simp only [step] at hstep
    cases hr : iff_read_string fuel r str with
    | error t => simp [hr] at hstep
    | ok v =>
      obtain ⟨res0, r0, dst⟩ := v
      simp only [hr, Except.ok.injEq, Prod.mk.injEq] at hstep
      obtain ⟨rfl, rfl⟩ := hstep
      exact wf_read_string hwt hwf hr hprov
  | close_chunk tag => exact wf_close hwt hwf hstep
  | close_form tag => exact wf_close hwt hwf hstep

/-- A byte of a window of the memory is the byte of the memory. -/
theorem getD_window (data : List Nat) (p n k : Nat) (h : k < n) :
    ((data.drop p).take n).getD k 0 = data.getD (p + k) 0 := by
  simp [List.getD_eq_getElem?_getD, List.getElem?_take_of_lt h, List.getElem?_drop]

/-- A load at offset `off` of a window that starts at `p` is the load of the
four bytes at `p + off`. -/
theorem load32_window (data : List Nat) (p n off : Nat) (h : off + 4 ≤ n) :
    load32 ((data.drop p).take n) off = load32 ((data.drop (p + off)).take 4) 0 := by
  unfold load32
  rw [getD_window data p n off (by omega), getD_window data p n (off + 1) (by omega),
    getD_window data p n (off + 2) (by omega), getD_window data p n (off + 3) (by omega),
    getD_window data (p + off) 4 0 (by omega), getD_window data (p + off) 4 (0 + 1) (by omega),
    getD_window data (p + off) 4 (0 + 2) (by omega),
    getD_window data (p + off) 4 (0 + 3) (by omega)]
  simp only [Nat.add_zero, Nat.zero_add, Nat.add_assoc]

/-- The enclosing scope of a well-formed reader ends inside the buffer. -/
theorem enclosing_end_le {r : IffReader} (hwt : r.WellTyped) (hwf : WF r) :
    enclosing_end r ≤ r.data_len := by
  unfold enclosing_end
  split_ifs with h0
  · exact le_rfl
  · exact (wf_top hwt hwf h0).2.2.2.2

/-- The frame `iff_open_chunk` computes from a header that fits is the declared
one: it starts behind the header and ends inside the enclosing scope. -/
theorem open_chunk_fits {r r2 : IffReader} {tag : Nat} (hwt : r.WellTyped) (hwf : WF r)
    (h : iff_open_chunk r tag = .ok (IffResult.Ok, r2))
    (hfit : r.pos + 8 + declared_size r.data r.pos ≤ enclosing_end r) :
    (frame r2 r.stack_pos).start ≤ (frame r2 r.stack_pos).end_
      ∧ (frame r2 r.stack_pos).end_ ≤ enclosing_end r := by
  rcases iff_open_chunk_cases h with ⟨hne, -⟩ | ⟨hne, -⟩ | ⟨-, -, bytes, hm, -, -, hl, hr2⟩
  · exact absurd hne (by simp)
  · rcases hne with hne | hne <;> exact absurd hne (by simp)
  · have hee := enclosing_end_le hwt hwf
    have hdl := hwt.2.1
    have hN : _byteswap_ulong (load32 bytes 4) = declared_size r.data r.pos := by
      rw [(memcpy_inv hm).1, load32_window r.data r.pos 8 4 (by omega)]
      rfl
    have hstack := congrArg IffReader.stack hr2
    simp only at hstack
    have hf := frame_set hstack hl r.stack_pos
    rw [if_pos rfl] at hf
    rw [hf, hN]
    simp only
    rw [add32_of_lt (show r.pos + 8 < U32 by omega),
      add32_of_lt (show r.pos + 8 + declared_size r.data r.pos < U32 by omega)]
    exact ⟨by omega, hfit⟩

/-- The frame `iff_open_form` computes from a header that fits is the declared
one: it starts behind the header and ends, `size - 4` bytes on, inside the
enclosing scope. -/
theorem open_form_fits {r r2 : IffReader} {tag : Nat} (hwt : r.WellTyped) (hwf : WF r)
    (h : iff_open_form r tag = .ok (IffResult.Ok, r2))
    (hfit : 4 ≤ declared_size r.data r.pos
      ∧ r.pos + 8 + declared_size r.data r.pos ≤ enclosing_end r) :
    (frame r2 r.stack_pos).start ≤ (frame r2 r.stack_pos).end_
      ∧ (frame r2 r.stack_pos).end_ ≤ enclosing_end r := by
  rcases iff_open_form_cases h with ⟨hne, -⟩ | ⟨hne, -⟩ | ⟨-, -, bytes, hm, -, -, hl, hr2⟩
  · exact absurd hne (by simp)
  · rcases hne with hne | hne <;> exact absurd hne (by simp)
  · have hee := enclosing_end_le hwt hwf
    have hdl := hwt.2.1
    have hN : _byteswap_ulong (load32 bytes 4) = declared_size r.data r.pos := by
      rw [(memcpy_inv hm).1, load32_window r.data r.pos 12 4 (by omega)]
      rfl
    have hstack := congrArg IffReader.stack hr2
    simp only at hstack
    have hf := frame_set hstack hl r.stack_pos
    rw [if_pos rfl] at hf
    rw [hf, hN]
    simp only
    obtain ⟨h4, hfit⟩ := hfit
    have hend : sub32 (add32 (add32 r.pos 12) (declared_size r.data r.pos)) 4
        = r.pos + 8 + declared_size r.data r.pos := by
      unfold sub32 add32 U32
      unfold U32 at hdl
      omega
    rw [hend, add32_of_lt (show r.pos + 12 < U32 by omega)]
    exact ⟨by omega, hfit⟩

/-- A call that returned `Ok` on a buffer that met `header_fits` met the side
condition of `step_wf`. -/
theorem header_fits_proviso {op : Op} {r r2 : IffReader} (hwt : r.WellTyped) (hwf : WF r)
    (hstep : step op r = .ok (IffResult.Ok, r2)) (hfit : header_fits op r) :
    proviso op r r2 := by
  cases op with
  | open_form tag => exact open_form_fits hwt hwf hstep hfit
  | open_chunk tag => exact open_chunk_fits hwt hwf hstep hfit
  | read size => trivial
  | read_string fuel str => exact hfit
  | close_chunk tag => trivial
  | close_form tag => trivial

/-- A guarded run keeps a well-typed, well-formed reader so. -/
theorem guarded_run_wf :
    ∀ (ops : List Op) (r r2 : IffReader), r.WellTyped → WF r → guarded_run ops r r2 →
      WF r2 ∧ r2.WellTyped
  | [], r, r2, hwt, hwf, h => by
    simp only [guarded_run] at h
    subst h
    exact ⟨hwf, hwt⟩
  | op :: ops, r, r2, hwt, hwf, h => by
    obtain ⟨r1, hfit, hstep, hrest⟩ := h
    exact guarded_run_wf ops r1 r2 (step_wellTyped hwt hstep)
      (step_wf hwt hwf hstep (header_fits_proviso hwt hwf hstep hfit)) hrest

/-- In a well-formed reader a frame lies inside every open frame below it. -/
theorem wf_chain {r : IffReader} (hwf : WF r) :
    ∀ (j i : Nat), i ≤ j → j < r.stack_pos →
      (frame r i).start ≤ (frame r j).start ∧ (frame r j).end_ ≤ (frame r i).end_
  | 0, i, hij, _ => by
    obtain rfl : i = 0 := by omega
    exact ⟨Nat.le_refl _, Nat.le_refl _⟩
  | j + 1, i, hij, hj => by
    by_cases h : i = j + 1
    · subst h
      exact ⟨Nat.le_refl _, Nat.le_refl _⟩
    · have ih := wf_chain hwf j i (by omega) (by omega)
      have hn := hwf.2.2.1 (j + 1) hj (by omega)
      simp only [Nat.add_sub_cancel] at hn
      omega

/-- A well-formed reader satisfies the nesting invariant. -/
theorem wf_nested {r : IffReader} (hwf : WF r) : Nested r := by
  constructor
  · intro i hi
    have h0 : r.stack_pos ≠ 0 := by omega
    have hcur := hwf.2.2.2
    rw [if_neg h0] at hcur
    have := wf_chain hwf (r.stack_pos - 1) i (by omega) (by omega)
    omega
  · intro i hi h0i
    have := hwf.2.2.1 i hi h0i
    exact ⟨this.1, this.2⟩

/-- The initial reader over a buffer of `data_len < 2^32` addressable bytes is
well typed and well formed. -/
theorem init_wellTyped_wf {data : List Nat} {data_len : Nat} (hlen : data_len ≤ data.length)
    (hl32 : data_len < U32) (hbytes : ∀ b ∈ data, b < 256) :
    (iff_init data data_len).WellTyped ∧ WF (iff_init data data_len) := by
  refine ⟨⟨by simp [iff_init, U32], hl32, by simp [iff_init, U32], by simp [iff_init], ?_,
    hbytes, hlen⟩, ⟨by simp [iff_init], ?_, ?_, ?_⟩⟩
  · intro n hn
    simp only [iff_init, List.mem_replicate] at hn
    rw [hn.2]
    exact ⟨by simp [U32], by simp [U32], by simp [U32]⟩
  · intro i hi
    simp [iff_init] at hi
  · intro i hi
    simp [iff_init] at hi
  · simp [iff_init]

/-- On `spin_buf` one round of the scan loop leaves the scan pointer at 12. -/
theorem spin_loop (fuel : Nat) :
    ∀ count, remaining_children_loop spin_buf 20 fuel 12 count = .error Trap.OutOfFuel := by
  induction fuel with
  | zero => intro count; rfl
  | succ n ih =>
    intro count
    have hstep : remaining_children_loop spin_buf 20 (n + 1) 12 count
        = remaining_children_loop spin_buf 20 n 12 (add32 count 1) := rfl
    rw [hstep]
    exact ih _

/-- The scan loop ends when, at every offset it takes, the header is
addressable and the advance does not wrap around `2^32`. -/
theorem remaining_children_loop_ends (data : List Nat) (end_ start : Nat)
    (H : ∀ c, Scanned data end_ start c → c < end_ →
      c + 8 ≤ data.length ∧ c + 8 + declared_size data c < U32) :
    ∀ (fuel curr count : Nat), Scanned data end_ start curr → end_ - curr ≤ fuel →
      ∃ n, remaining_children_loop data end_ fuel curr count = .ok n
  | 0, curr, count, _, hf => by
    refine ⟨count, ?_⟩
    rw [remaining_children_loop, if_neg (by omega)]
  | fuel + 1, curr, count, hsc, hf => by
    by_cases hlt : curr < end_
    · obtain ⟨hmem, hwrap⟩ := H curr hsc hlt
      have h4 : add32 curr 4 = curr + 4 := add32_of_lt (by omega)
      have hadv : add32 curr (add32 (declared_size data curr) 8)
          = curr + 8 + declared_size data curr := by
        unfold add32 U32 at *; omega
      obtain ⟨n, hn⟩ := remaining_children_loop_ends data end_ start H fuel
        (add32 curr (add32 (declared_size data curr) 8)) (add32 count 1)
        (Scanned.next hsc hlt) (by omega)
      refine ⟨n, ?_⟩
      rw [remaining_children_loop, if_pos hlt, h4, memcpy_of_le (by omega)]
      exact hn
    · refine ⟨count, ?_⟩
      rw [remaining_children_loop, if_neg hlt]

/-- The scan of `list_buf` from 12 in the frame that ends at 32 takes the
offsets 12, 24 and 32. -/
theorem scanned_list_buf {c : Nat} (h : Scanned list_buf 32 12 c) : c = 12 ∨ c = 24 ∨ c = 32 := by
  induction h with
  | first => exact Or.inl rfl
  | next _ hlt ih =>
    rcases ih with rfl | rfl | rfl
    · exact Or.inr (Or.inl (by decide))
    · exact Or.inr (Or.inr (by decide))
    · omega

/-- With depth at most 64 and 64 frame slots `iff_close_chunk` returns: its
lookup of slot `depth - 1` comes after the underflow check. -/
theorem iff_close_chunk_returns {r : IffReader} (hd : r.stack_pos ≤ 64)
    (hl : r.stack.length = 64) (tag : Nat) :
    ∃ res r2, iff_close_chunk r tag = .ok (res, r2) := by
  by_cases h0 : r.stack_pos = 0
  · exact ⟨IffResult.StackUnderflow, r, by simp [iff_close_chunk, h0]⟩
  · have hs : sub32 r.stack_pos 1 = r.stack_pos - 1 :=
      sub32_of_le (by omega) (by unfold U32; omega)
    have hlt : r.stack_pos - 1 < r.stack.length := by omega
    simp only [iff_close_chunk, if_neg h0, hs, List.getElem?_eq_getElem hlt]
    split_ifs <;> exact ⟨_, _, rfl⟩

/-- With 64 frame slots, an `iff_open_chunk` that does not return faulted on the
buffer: its store into slot `depth` comes after the capacity check. -/
theorem iff_open_chunk_trap {r : IffReader} (hl : r.stack.length = 64) {tag : Nat}
    {t : Trap}     (h : iff_open_chunk r tag = .error t) : memcpy r.data r.pos 8 = none := by
  cases hm : memcpy r.data r.pos 8 with
  | none => rfl
  | some bytes =>
    exfalso
    by_cases hg : 8 > sub32 r.data_len r.pos
    · simp [iff_open_chunk, iff_read_internal, hg] at h
    · simp only [iff_open_chunk, iff_read_internal, if_neg hg, hm] at h
      split_ifs at h
      have hcap : STACK_LEN = 64 := rfl
      omega

/-- With 64 frame slots, an `iff_open_form` that does not return faulted on the
buffer: its store into slot `depth` comes after the capacity check. -/
theorem iff_open_form_trap {r : IffReader} (hl : r.stack.length = 64) {tag : Nat}
    {t : Trap}     (h : iff_open_form r tag = .error t) : memcpy r.data r.pos 12 = none := by
  cases hm : memcpy r.data r.pos 12 with
  | none => rfl
  | some bytes =>
    exfalso
    by_cases hg : 12 > sub32 r.data_len r.pos
    · simp [iff_open_form, iff_read_internal, hg] at h
    · simp only [iff_open_form, iff_read_internal, if_neg hg, hm] at h
      split_ifs at h
      have hcap : STACK_LEN = 64 := rfl
      omega

/-- With depth at most 64 and 64 frame slots, an `iff_read` that does not return
faulted on the buffer: its lookup of slot `depth - 1` comes after the check for
depth 0. -/
theorem iff_read_trap {r : IffReader} (hd : r.stack_pos ≤ 64)
    (hl : r.stack.length = 64) {size : Nat} {t : Trap}
    (h : iff_read r size = .error t) : memcpy r.data r.pos size = none := by
  cases hm : memcpy r.data r.pos size with
  | none => rfl
  | some bytes =>
    exfalso
    by_cases h0 : r.stack_pos = 0
    · simp [iff_read, h0] at h
    · have hs : sub32 r.stack_pos 1 = r.stack_pos - 1 :=
        sub32_of_le (by omega) (by unfold U32; omega)
      have hlt : r.stack_pos - 1 < r.stack.length := by omega
      simp only [iff_read, if_neg h0, hs, List.getElem?_eq_getElem hlt, hm] at h
      split_ifs at h

/-- With depth at most 64 and 64 frame slots, an `iff_get_remaining_children`
that does not return stopped in its scan loop: its lookup of slot `depth - 1`
comes after the check for depth 0. -/
theorem iff_get_remaining_children_trap {r : IffReader} (hd : r.stack_pos ≤ 64)
    (hl : r.stack.length = 64) {fuel : Nat} {t : Trap}
    (h : iff_get_remaining_children fuel r = .error t) :
    remaining_children_loop r.data (frame r (r.stack_pos - 1)).end_ fuel r.pos 0
      = .error t := by
  by_cases h0 : r.stack_pos = 0
  · simp [iff_get_remaining_children, h0] at h
  · have hs : sub32 r.stack_pos 1 = r.stack_pos - 1 :=
      sub32_of_le (by omega) (by unfold U32; omega)
    have hlt : r.stack_pos - 1 < r.stack.length := by omega
    simp only [iff_get_remaining_children, if_neg h0, hs, getElem?_frame hlt] at h
    split_ifs at h
    exact h

/-- The readers `open_chunk_times` passes through are reachable. -/
theorem reachable_open_chunk_times {data : List Nat} {data_len : Nat} (tag : Nat) :
    ∀ (n : Nat) (r r2 : IffReader), Reachable data data_len r →
      open_chunk_times tag n r = .ok (IffResult.Ok, r2) → Reachable data data_len r2
  | 0, r, r2, hr, h => by
    simp only [open_chunk_times, Except.ok.injEq, Prod.mk.injEq, true_and] at h
    exact h ▸ hr
  | n + 1, r, r2, hr, h => by
    unfold open_chunk_times at h
    split at h
    · next r1 heq =>
      exact reachable_open_chunk_times tag n r1 r2
        (Reachable.call hr (show step (.open_chunk tag) r = .ok (IffResult.Ok, r1) from heq)) h
    · next hne => exact absurd h (hne r2)

/-- The 64 opens of `AAAA` on `nested_headers 64` all return `Ok` and leave
`full_reader`. -/
theorem full_reader_opened :
    open_chunk_times (ae_iff_tag ['A', 'A', 'A', 'A']) 64 (iff_init (nested_headers 64) 524)
      = .ok (IffResult.Ok, full_reader) := by
  decide

/-! ## C1: over-read rejection -/

/-- C1 (fails on the code): a FORM header that declares size 0 makes
`iff_open_form` push the frame `{start = 12, end = 8}` with the cursor at 12.
One byte is more than the `8 - 12` bytes that remain in that frame, yet
`iff_read` of 1 byte returns `Ok` and moves the cursor to 13: the 32-bit
difference `end - pos` wraps to `2^32 - 4`. -/
theorem iff_read_accepts_over_read :
    ∃ r node r2 dst,
      iff_open_form (iff_init short_form_buf 13) (ae_iff_tag ['A', 'B', 'C', 'D'])
        = .ok (IffResult.Ok, r)
      ∧ 0 < r.stack_pos ∧ r.stack[r.stack_pos - 1]? = some node
      ∧ (1 : Int) > (node.end_ : Int) - (r.pos : Int)
      ∧ iff_read r 1 = .ok (IffResult.Ok, r2, dst)
      ∧ r2.pos = r.pos + 1 :=
  ⟨{ pos := 12, data_len := 13, data := short_form_buf,
     stack := (List.replicate 64 { start := 0, end_ := 0, tag := 0 }).set 0
       { start := 12, end_ := 8, tag := ae_iff_tag ['A', 'B', 'C', 'D'] },
     stack_pos := 1 },
   { start := 12, end_ := 8, tag := ae_iff_tag ['A', 'B', 'C', 'D'] },
   { pos := 13, data_len := 13, data := short_form_buf,
     stack := (List.replicate 64 { start := 0, end_ := 0, tag := 0 }).set 0
       { start := 12, end_ := 8, tag := ae_iff_tag ['A', 'B', 'C', 'D'] },
     stack_pos := 1 },
   [9], by decide, by decide, by decide, by decide, by decide, by decide⟩

/-! ## C2: successful read -/

/-- C2: with an open frame, the cursor at or before the top frame's end, that
end inside the buffer and `size` no more than the bytes left in the frame,
`iff_read` returns `Ok`, copies exactly `data[pos .. pos + size)`, advances the
cursor by `size` and changes nothing else (depth and all frames are kept). -/
theorem iff_read_ok (r : IffReader) (node : IffStackNode) (size : Nat)
    (hwt : r.WellTyped) (hd : 0 < r.stack_pos)
    (htop : r.stack[r.stack_pos - 1]? = some node)
    (hpos : r.pos ≤ node.end_) (hend : node.end_ ≤ r.data_len)
    (hsize : size ≤ node.end_ - r.pos) :
    iff_read r size
      = .ok (IffResult.Ok, { r with pos := r.pos + size }, (r.data.drop r.pos).take size) := by
  obtain ⟨hp, hl, hs, -, -, -, hdl⟩ := hwt
  have h0 : sub32 r.stack_pos 1 = r.stack_pos - 1 := sub32_of_le hd hs
  have h1 : sub32 node.end_ r.pos = node.end_ - r.pos := sub32_of_le hpos (by omega)
  have h2 : ¬ size > node.end_ - r.pos := by omega
  have h3 : add32 r.pos size = r.pos + size := add32_of_lt (by omega)
  have h4 : r.stack_pos ≠ 0 := by omega
  simp [iff_read, h0, h1, h2, h3, h4, htop,
    memcpy_of_le (show r.pos + size ≤ r.data.length by omega)]

/-- C2 at `list_reader` (cursor 12, frame end 32): reading 10 bytes gives the
chunk header `DATA`, size 4 and its first two payload bytes. -/
theorem iff_read_ok_witness :
    iff_read list_reader 10
      = .ok (IffResult.Ok, { list_reader with pos := 22 }, [68, 65, 84, 65, 0, 0, 0, 4, 1, 2]) :=
  iff_read_ok list_reader { start := 12, end_ := 32, tag := ae_iff_tag ['L', 'I', 'S', 'T'] } 10
    (by decide) (by decide) (by decide) (by decide) (by decide) (by decide)

/-! ## C3: successful open -/

/-- C3: below depth 64, with a 12-byte header `FORM`, big-endian size `S`, the
expected tag's bytes at the cursor `p` of `f` and inside the buffer,
`iff_open_form` returns `Ok`, moves the cursor to `p + 12`, adds one to the
depth, keeps every lower frame and pushes
`{start = p + 12, end = p + 12 + S - 4 mod 2^32, tag}`; with an 8-byte header
(expected tag, big-endian size `S`) at the cursor `p` of `c`, `iff_open_chunk`
returns `Ok`, moves the cursor to `p + 8` and pushes
`{start = p + 8, end = p + 8 + S mod 2^32, tag}`. -/
theorem open_pushes_frame (f c : IffReader) (ftag f0 f1 f2 f3 ctag c0 c1 c2 c3 : Nat)
    (hfwt : f.WellTyped) (hftag : ftag < U32) (hfdepth : f.stack_pos < 64)
    (hflen : f.pos + 12 ≤ f.data_len)
    (hfbytes : (f.data.drop f.pos).take 12
      = ['F', 'O', 'R', 'M'].map Char.toNat ++ [f0, f1, f2, f3] ++ store32 ftag)
    (hcwt : c.WellTyped) (hctag : ctag < U32) (hcdepth : c.stack_pos < 64)
    (hclen : c.pos + 8 ≤ c.data_len)
    (hcbytes : (c.data.drop c.pos).take 8 = store32 ctag ++ [c0, c1, c2, c3]) :
    (∃ r2 e, iff_open_form f ftag = .ok (IffResult.Ok, r2)
      ∧ r2.pos = f.pos + 12 ∧ r2.stack_pos = f.stack_pos + 1
      ∧ (∀ i, i < f.stack_pos → r2.stack[i]? = f.stack[i]?)
      ∧ r2.stack[f.stack_pos]? = some { start := f.pos + 12, end_ := e, tag := ftag }
      ∧ (e : Int) = ((f.pos : Int) + 12 + (be32 f0 f1 f2 f3 : Int) - 4) % 4294967296
      ∧ r2.data = f.data ∧ r2.data_len = f.data_len)
    ∧ (∃ r2 e, iff_open_chunk c ctag = .ok (IffResult.Ok, r2)
      ∧ r2.pos = c.pos + 8 ∧ r2.stack_pos = c.stack_pos + 1
      ∧ (∀ i, i < c.stack_pos → r2.stack[i]? = c.stack[i]?)
      ∧ r2.stack[c.stack_pos]? = some { start := c.pos + 8, end_ := e, tag := ctag }
      ∧ (e : Int) = ((c.pos : Int) + 8 + (be32 c0 c1 c2 c3 : Int)) % 4294967296
      ∧ r2.data = c.data ∧ r2.data_len = c.data_len) := by
  have hfs : f.stack.length = 64 := hfwt.2.2.2.1
  have hcs : c.stack.length = 64 := hcwt.2.2.2.1
  constructor
  · refine ⟨_, sub32 (add32 (f.pos + 12) (be32 f0 f1 f2 f3)) 4,
      iff_open_form_ok f ftag f0 f1 f2 f3 hfwt hftag hfdepth hflen hfbytes,
      rfl, rfl, ?_, ?_, ?_, rfl, rfl⟩
    · intro i hi
      exact List.getElem?_set_ne (by omega)
    · exact List.getElem?_set_self (by omega)
    · have hp := hfwt.1
      unfold sub32 add32 U32 at *
      omega
  · refine ⟨_, add32 (c.pos + 8) (be32 c0 c1 c2 c3),
      iff_open_chunk_ok c ctag c0 c1 c2 c3 hcwt hctag hcdepth hclen hcbytes,
      rfl, rfl, ?_, ?_, ?_, rfl, rfl⟩
    · intro i hi
      exact List.getElem?_set_ne (by omega)
    · exact List.getElem?_set_self (by omega)
    · have hp := hcwt.1
      unfold add32 U32 at *
      omega

/-- C3 at `list_buf`: opening `FORM(24, LIST)` from the initial reader, and
opening `CHUNK(DATA, 4)` at `list_reader`. -/
theorem open_pushes_frame_witness :
    (∃ r2 e, iff_open_form (iff_init list_buf 32) (ae_iff_tag ['L', 'I', 'S', 'T'])
        = .ok (IffResult.Ok, r2)
      ∧ r2.pos = (iff_init list_buf 32).pos + 12
      ∧ r2.stack_pos = (iff_init list_buf 32).stack_pos + 1
      ∧ (∀ i, i < (iff_init list_buf 32).stack_pos
          → r2.stack[i]? = (iff_init list_buf 32).stack[i]?)
      ∧ r2.stack[(iff_init list_buf 32).stack_pos]?
          = some { start := (iff_init list_buf 32).pos + 12, end_ := e,
                   tag := ae_iff_tag ['L', 'I', 'S', 'T'] }
      ∧ (e : Int) = (((iff_init list_buf 32).pos : Int) + 12 + (be32 0 0 0 24 : Int) - 4)
          % 4294967296
      ∧ r2.data = (iff_init list_buf 32).data ∧ r2.data_len = (iff_init list_buf 32).data_len)
    ∧ (∃ r2 e, iff_open_chunk list_reader (ae_iff_tag ['D', 'A', 'T', 'A'])
        = .ok (IffResult.Ok, r2)
      ∧ r2.pos = list_reader.pos + 8 ∧ r2.stack_pos = list_reader.stack_pos + 1
      ∧ (∀ i, i < list_reader.stack_pos → r2.stack[i]? = list_reader.stack[i]?)
      ∧ r2.stack[list_reader.stack_pos]?
          = some { start := list_reader.pos + 8, end_ := e,
                   tag := ae_iff_tag ['D', 'A', 'T', 'A'] }
      ∧ (e : Int) = ((list_reader.pos : Int) + 8 + (be32 0 0 0 4 : Int)) % 4294967296
      ∧ r2.data = list_reader.data ∧ r2.data_len = list_reader.data_len) :=
  open_pushes_frame (iff_init list_buf 32) list_reader
    (ae_iff_tag ['L', 'I', 'S', 'T']) 0 0 0 24 (ae_iff_tag ['D', 'A', 'T', 'A']) 0 0 0 4
    (by decide) (by decide) (by decide) (by decide) (by decide)
    (by decide) (by decide) (by decide) (by decide) (by decide)

/-! ## C4: close against its reference definition -/

/-- C4: on every well-typed reader of depth at most 64, `iff_close_chunk` and
`iff_close_form` both return what `close_reference` prescribes: at depth 0
`StackUnderflow` with the reader unchanged; otherwise the top frame is popped
and the result is `ReaderError` (cursor kept) when the popped tag differs from
the expected one or the cursor is past the frame's end, else `Ok` with the
cursor set to the frame's end. -/
theorem close_refines (r : IffReader) (tag : Nat) (hwt : r.WellTyped)
    (hdepth : r.stack_pos ≤ 64) :
    iff_close_chunk r tag = .ok (close_reference r tag)
      ∧ iff_close_form r tag = .ok (close_reference r tag) := by
  have hlen : r.stack.length = 64 := hwt.2.2.2.1
  have key : iff_close_chunk r tag = .ok (close_reference r tag) := by
    unfold iff_close_chunk close_reference
    by_cases h0 : r.stack_pos = 0
    · simp [h0]
    · have hs : sub32 r.stack_pos 1 = r.stack_pos - 1 :=
        sub32_of_le (by omega) (by unfold U32; omega)
      have hlt : r.stack_pos - 1 < r.stack.length := by omega
      simp only [h0, if_false, hs, List.getElem?_eq_getElem hlt, List.getD_eq_getElem _ _ hlt]
      split_ifs <;> first | rfl | omega
  exact ⟨key, key⟩

/-- C4 at `list_reader` (cursor 12, one frame `LIST` ending at 32): both
closes pop the frame and move the cursor to 32 although nothing was read. -/
theorem close_refines_witness :
    iff_close_chunk list_reader (ae_iff_tag ['L', 'I', 'S', 'T'])
        = .ok (IffResult.Ok, { list_reader with pos := 32, stack_pos := 0 })
      ∧ iff_close_form list_reader (ae_iff_tag ['L', 'I', 'S', 'T'])
        = .ok (IffResult.Ok, { list_reader with pos := 32, stack_pos := 0 }) :=
  close_refines list_reader (ae_iff_tag ['L', 'I', 'S', 'T']) (by decide) (by decide)

/-! ## C5: frame-skip for chunks -/

/-- C5 (fails as stated): a chunk header at cursor 0 that declares size
`N = 0xFFFFFFFF` is opened with `Ok`, the pushed frame ends at
`0 + 8 + N mod 2^32 = 7`, below the cursor 8, and the immediate
`iff_close_chunk` returns `ReaderError` with the cursor still at 8. -/
theorem chunk_frame_skip_wraps :
    (wrap_chunk_buf.drop 0).take 8 = store32 (ae_iff_tag ['D', 'A', 'T', 'A'])
        ++ [255, 255, 255, 255]
      ∧ ∃ r1 r2,
        iff_open_chunk (iff_init wrap_chunk_buf 8) (ae_iff_tag ['D', 'A', 'T', 'A'])
          = .ok (IffResult.Ok, r1)
        ∧ iff_close_chunk r1 (ae_iff_tag ['D', 'A', 'T', 'A']) = .ok (IffResult.ReaderError, r2)
        ∧ r2.pos = 8 :=
  ⟨by decide,
   { pos := 8, data_len := 8, data := wrap_chunk_buf,
     stack := (List.replicate 64 { start := 0, end_ := 0, tag := 0 }).set 0
       { start := 8, end_ := 7, tag := ae_iff_tag ['D', 'A', 'T', 'A'] },
     stack_pos := 1 },
   { pos := 8, data_len := 8, data := wrap_chunk_buf,
     stack := (List.replicate 64 { start := 0, end_ := 0, tag := 0 }).set 0
       { start := 8, end_ := 7, tag := ae_iff_tag ['D', 'A', 'T', 'A'] },
     stack_pos := 0 },
   by decide, by decide, by decide⟩

/-- C5 (amended): for a chunk header at cursor `p` with declared size `N` such
that `p + 8 + N < 2^32`, if `iff_open_chunk` succeeds then an immediate
`iff_close_chunk` with the same tag succeeds, restores the depth and leaves the
cursor at `p + 8 + N`. -/
theorem chunk_frame_skip (r r1 : IffReader) (tag t0 t1 t2 t3 b0 b1 b2 b3 : Nat)
    (hwt : r.WellTyped)
    (hhdr : (r.data.drop r.pos).take 8 = [t0, t1, t2, t3, b0, b1, b2, b3])
    (hopen : iff_open_chunk r tag = .ok (IffResult.Ok, r1))
    (hfit : r.pos + 8 + be32 b0 b1 b2 b3 < U32) :
    ∃ r2, iff_close_chunk r1 tag = .ok (IffResult.Ok, r2)
      ∧ r2.pos = r.pos + 8 + be32 b0 b1 b2 b3 ∧ r2.stack_pos = r.stack_pos := by
  obtain ⟨bytes, hm, -, hd, hl, rfl⟩ := iff_open_chunk_inv hopen
  obtain ⟨rfl, -⟩ := memcpy_inv hm
  have hb0 : b0 < 256 := byte_lt_of_mem_window hwt (p := r.pos) (n := 8) (by simp [hhdr])
  have hb1 : b1 < 256 := byte_lt_of_mem_window hwt (p := r.pos) (n := 8) (by simp [hhdr])
  have hb2 : b2 < 256 := byte_lt_of_mem_window hwt (p := r.pos) (n := 8) (by simp [hhdr])
  have hb3 : b3 < 256 := byte_lt_of_mem_window hwt (p := r.pos) (n := 8) (by simp [hhdr])
  have e4 : _byteswap_ulong (load32 ((r.data.drop r.pos).take 8) 4) = be32 b0 b1 b2 b3 := by
    rw [hhdr]
    exact (congrArg _ (load32_skip4 _ _ _ _ _ 0)).trans (byteswap_load32 hb0 hb1 hb2 hb3 _)
  have e1 : add32 r.pos 8 = r.pos + 8 := add32_of_lt (by omega)
  have e2 : add32 (r.pos + 8) (be32 b0 b1 b2 b3) = r.pos + 8 + be32 b0 b1 b2 b3 :=
    add32_of_lt hfit
  rw [e4, e1, e2]
  have hc := iff_close_after_push r
    { start := r.pos + 8, end_ := r.pos + 8 + be32 b0 b1 b2 b3, tag := tag } (r.pos + 8) hd hl
  rw [if_neg (by simp)] at hc
  exact ⟨_, hc, rfl, rfl⟩

/-- C5 (amended) at `list_reader`: opening and at once closing `CHUNK(DATA, 4)`
at cursor 12 leaves the cursor at `12 + 8 + 4`. -/
theorem chunk_frame_skip_witness :
    ∃ r2, iff_close_chunk
        { list_reader with
          pos := 20
          stack := list_reader.stack.set 1
            { start := 20, end_ := 24, tag := ae_iff_tag ['D', 'A', 'T', 'A'] }
          stack_pos := 2 }
        (ae_iff_tag ['D', 'A', 'T', 'A']) = .ok (IffResult.Ok, r2)
      ∧ r2.pos = list_reader.pos + 8 + be32 0 0 0 4 ∧ r2.stack_pos = list_reader.stack_pos :=
  chunk_frame_skip list_reader _ (ae_iff_tag ['D', 'A', 'T', 'A']) 68 65 84 65 0 0 0 4
    (by decide) (by decide) (by decide) (by decide)

/-! ## C6: frame-skip for forms -/

/-- C6 (fails as stated): the FORM header of `short_form_buf` declares size
`N = 0`.  `iff_open_form` returns `Ok` with the cursor at 12 and the frame
`{start = 12, end = 8}`; the immediate `iff_close_form` returns `ReaderError`
and the cursor stays at 12 instead of moving to `0 + 12 + 0 - 4`. -/
theorem form_frame_skip_small_size :
    (short_form_buf.drop 0).take 12 = ['F', 'O', 'R', 'M'].map Char.toNat ++ [0, 0, 0, 0]
        ++ store32 (ae_iff_tag ['A', 'B', 'C', 'D'])
      ∧ ∃ r1 r2,
        iff_open_form (iff_init short_form_buf 13) (ae_iff_tag ['A', 'B', 'C', 'D'])
          = .ok (IffResult.Ok, r1)
        ∧ iff_close_form r1 (ae_iff_tag ['A', 'B', 'C', 'D']) = .ok (IffResult.ReaderError, r2)
        ∧ r2.pos = 12 :=
  ⟨by decide,
   { pos := 12, data_len := 13, data := short_form_buf,
     stack := (List.replicate 64 { start := 0, end_ := 0, tag := 0 }).set 0
       { start := 12, end_ := 8, tag := ae_iff_tag ['A', 'B', 'C', 'D'] },
     stack_pos := 1 },
   { pos := 12, data_len := 13, data := short_form_buf,
     stack := (List.replicate 64 { start := 0, end_ := 0, tag := 0 }).set 0
       { start := 12, end_ := 8, tag := ae_iff_tag ['A', 'B', 'C', 'D'] },
     stack_pos := 0 },
   by decide, by decide, by decide⟩

/-- C6 (amended): for a FORM header at cursor `p` with declared size `N` such
that `4 ≤ N` and `p + 12 + N - 4 < 2^32`, if `iff_open_form` succeeds then an
immediate `iff_close_form` with the same tag succeeds, restores the depth and
leaves the cursor at `p + 12 + N - 4`. -/
theorem form_frame_skip (r r1 : IffReader) (tag m0 m1 m2 m3 b0 b1 b2 b3 t0 t1 t2 t3 : Nat)
    (hwt : r.WellTyped)
    (hhdr : (r.data.drop r.pos).take 12 = [m0, m1, m2, m3, b0, b1, b2, b3, t0, t1, t2, t3])
    (hopen : iff_open_form r tag = .ok (IffResult.Ok, r1))
    (hmin : 4 ≤ be32 b0 b1 b2 b3)
    (hfit : r.pos + 12 + be32 b0 b1 b2 b3 - 4 < U32) :
    ∃ r2, iff_close_form r1 tag = .ok (IffResult.Ok, r2)
      ∧ r2.pos = r.pos + 12 + be32 b0 b1 b2 b3 - 4 ∧ r2.stack_pos = r.stack_pos := by
  obtain ⟨bytes, hm, -, -, hd, hl, rfl⟩ := iff_open_form_inv hopen
  obtain ⟨rfl, -⟩ := memcpy_inv hm
  have hb0 : b0 < 256 := byte_lt_of_mem_window hwt (p := r.pos) (n := 12) (by simp [hhdr])
  have hb1 : b1 < 256 := byte_lt_of_mem_window hwt (p := r.pos) (n := 12) (by simp [hhdr])
  have hb2 : b2 < 256 := byte_lt_of_mem_window hwt (p := r.pos) (n := 12) (by simp [hhdr])
  have hb3 : b3 < 256 := byte_lt_of_mem_window hwt (p := r.pos) (n := 12) (by simp [hhdr])
  have e4 : _byteswap_ulong (load32 ((r.data.drop r.pos).take 12) 4) = be32 b0 b1 b2 b3 := by
    rw [hhdr]
    exact (congrArg _ (load32_skip4 _ _ _ _ _ 0)).trans (byteswap_load32 hb0 hb1 hb2 hb3 _)
  have e1 : add32 r.pos 12 = r.pos + 12 := add32_of_lt (by omega)
  have e2 : sub32 (add32 (r.pos + 12) (be32 b0 b1 b2 b3)) 4
      = r.pos + 12 + be32 b0 b1 b2 b3 - 4 := by
    unfold sub32 add32 U32 at *
    omega
  rw [e4, e1, e2]
  have hc := iff_close_after_push r
    { start := r.pos + 12, end_ := r.pos + 12 + be32 b0 b1 b2 b3 - 4, tag := tag }
    (r.pos + 12) hd hl
  rw [if_neg (by simp only [gt_iff_lt, not_lt]; omega)] at hc
  exact ⟨_, hc, rfl, rfl⟩

/-- C6 (amended) at `list_buf`: opening and at once closing `FORM(24, LIST)` at
cursor 0 leaves the cursor at `0 + 12 + 24 - 4 = 32`. -/
theorem form_frame_skip_witness :
    ∃ r2, iff_close_form list_reader (ae_iff_tag ['L', 'I', 'S', 'T']) = .ok (IffResult.Ok, r2)
      ∧ r2.pos = (iff_init list_buf 32).pos + 12 + be32 0 0 0 24 - 4
      ∧ r2.stack_pos = (iff_init list_buf 32).stack_pos :=
  form_frame_skip (iff_init list_buf 32) list_reader (ae_iff_tag ['L', 'I', 'S', 'T'])
    70 79 82 77 0 0 0 24 76 73 83 84 (by decide) (by decide) (by decide) (by decide) (by decide)

/-! ## C7: under-read realignment -/

/-- C7: below depth 64, with the chunk header (`T`, big-endian `N`) at cursor
`p`, `m < N` and `p + 8 + N ≤ data_len`, the calls `iff_open_chunk T`,
`iff_read` of `m` bytes, `iff_close_chunk T` all return `Ok`, restore the depth
and leave the cursor at `p + 8 + N`; and when a chunk header (`U`, big-endian
`M`) lies at `p + 8 + N` inside the buffer, a following `iff_open_chunk U`
returns `Ok` and pushes the frame
`{start = p + 8 + N + 8, end = p + 8 + N + 8 + M mod 2^32, tag = U}`. -/
theorem under_read_realigns (r : IffReader) (T b0 b1 b2 b3 m U c0 c1 c2 c3 : Nat)
    (hwt : r.WellTyped) (hT : T < U32) (hdepth : r.stack_pos < 64)
    (hhdr : (r.data.drop r.pos).take 8 = store32 T ++ [b0, b1, b2, b3])
    (hm : m < be32 b0 b1 b2 b3)
    (hfit : r.pos + 8 + be32 b0 b1 b2 b3 ≤ r.data_len) :
    ∃ r1 r2 r3 dst,
      iff_open_chunk r T = .ok (IffResult.Ok, r1)
      ∧ iff_read r1 m = .ok (IffResult.Ok, r2, dst)
      ∧ iff_close_chunk r2 T = .ok (IffResult.Ok, r3)
      ∧ r3.stack_pos = r.stack_pos
      ∧ r3.pos = r.pos + 8 + be32 b0 b1 b2 b3
      ∧ (U < U32 → r.pos + 8 + be32 b0 b1 b2 b3 + 8 ≤ r.data_len →
          (r.data.drop (r.pos + 8 + be32 b0 b1 b2 b3)).take 8 = store32 U ++ [c0, c1, c2, c3] →
          ∃ r4, iff_open_chunk r3 U = .ok (IffResult.Ok, r4)
            ∧ r4.stack_pos = r.stack_pos + 1
            ∧ r4.pos = r.pos + 8 + be32 b0 b1 b2 b3 + 8
            ∧ r4.stack[r.stack_pos]? = some
                { start := r.pos + 8 + be32 b0 b1 b2 b3 + 8
                  end_ := (r.pos + 8 + be32 b0 b1 b2 b3 + 8 + be32 c0 c1 c2 c3) % 4294967296
                  tag := U }) := by
  obtain ⟨hp, hl, hs, hlen, hst, hby, hdl⟩ := hwt
  have hwt : r.WellTyped := ⟨hp, hl, hs, hlen, hst, hby, hdl⟩
  have hN : r.pos + 8 + be32 b0 b1 b2 b3 < U32 := by omega
  have hopen := iff_open_chunk_ok r T b0 b1 b2 b3 hwt hT hdepth (by omega) hhdr
  rw [add32_of_lt hN] at hopen
  have hread := iff_read_of_fits
    { r with
      pos := r.pos + 8
      stack := r.stack.set r.stack_pos
        { start := r.pos + 8, end_ := r.pos + 8 + be32 b0 b1 b2 b3, tag := T }
      stack_pos := r.stack_pos + 1 }
    { start := r.pos + 8, end_ := r.pos + 8 + be32 b0 b1 b2 b3, tag := T } m
    (by simp) (by simp only; unfold U32; omega)
    (by simpa using List.getElem?_set_self (by omega))
    hN (by simp only; omega) (by simp only; omega)
  have hclose := iff_close_after_push r
    { start := r.pos + 8, end_ := r.pos + 8 + be32 b0 b1 b2 b3, tag := T }
    (r.pos + 8 + m) hdepth (by omega)
  rw [if_neg (by simp only [gt_iff_lt, not_lt]; omega),
    add32_of_lt (show r.stack_pos + 1 < U32 by unfold U32; omega)] at hclose
  refine ⟨_, _, _, _, hopen, hread, hclose, rfl, rfl, ?_⟩
  intro hU hfit2 hhdr2
  have hwt3 := @wellTyped_set_frame r hwt (r.pos + 8 + be32 b0 b1 b2 b3) r.stack_pos
    { start := r.pos + 8, end_ := r.pos + 8 + be32 b0 b1 b2 b3, tag := T }
    hN ⟨by simp only; omega, hN, hT⟩
  have hopen2 := iff_open_chunk_ok _ U c0 c1 c2 c3 hwt3 hU hdepth hfit2 hhdr2
  refine ⟨_, hopen2, rfl, rfl, ?_⟩
  simp only [add32, U32]
  rw [List.getElem?_set_self (by simp only [List.length_set]; omega)]

/-- C7 at `list_reader`: `CHUNK(DATA, 4)` at cursor 12 is opened, 2 of its 4
bytes are read, it is closed with the cursor at 24, and the sibling
`CHUNK(ITEM, 0)` found there opens with the frame `{32, 32, ITEM}`. -/
theorem under_read_realigns_witness :
    ∃ r1 r2 r3 dst r4,
      iff_open_chunk list_reader (ae_iff_tag ['D', 'A', 'T', 'A']) = .ok (IffResult.Ok, r1)
      ∧ iff_read r1 2 = .ok (IffResult.Ok, r2, dst)
      ∧ iff_close_chunk r2 (ae_iff_tag ['D', 'A', 'T', 'A']) = .ok (IffResult.Ok, r3)
      ∧ r3.stack_pos = 1 ∧ r3.pos = 24
      ∧ iff_open_chunk r3 (ae_iff_tag ['I', 'T', 'E', 'M']) = .ok (IffResult.Ok, r4)
      ∧ r4.stack[1]? = some { start := 32, end_ := 32, tag := ae_iff_tag ['I', 'T', 'E', 'M'] } := by
  obtain ⟨r1, r2, r3, dst, h1, h2, h3, h4, h5, h6⟩ :=
    under_read_realigns list_reader (ae_iff_tag ['D', 'A', 'T', 'A']) 0 0 0 4 2
      (ae_iff_tag ['I', 'T', 'E', 'M']) 0 0 0 0
      (by decide) (by decide) (by decide) (by decide) (by decide) (by decide)
  obtain ⟨r4, h7, -, -, h8⟩ := h6 (by decide) (by decide) (by decide)
  exact ⟨r1, r2, r3, dst, r4, h1, h2, h3, h4, h5, h7, h8⟩

/-! ## C8: tag mismatch on open -/

/-- C8: with 8 header bytes inside the buffer at the cursor of `c` whose four
tag bytes are not the bytes of the expected tag `X`, `iff_open_chunk c X`
returns `UnexpectedTag`, the cursor has advanced by 8 and depth and frames are
as before; with 12 header bytes inside the buffer at the cursor of `f` whose
marker is not `FORM` or whose tag bytes are not those of `Y`,
`iff_open_form f Y` returns `UnexpectedTag`, the cursor has advanced by 12 and
no frame is pushed. -/
theorem open_tag_mismatch (c f : IffReader)
    (X y0 y1 y2 y3 s0 s1 s2 s3 Y m0 m1 m2 m3 q0 q1 q2 q3 z0 z1 z2 z3 : Nat)
    (hcwt : c.WellTyped) (hclen : c.pos + 8 ≤ c.data_len)
    (hchdr : (c.data.drop c.pos).take 8 = [y0, y1, y2, y3, s0, s1, s2, s3])
    (hcne : [y0, y1, y2, y3] ≠ store32 X)
    (hfwt : f.WellTyped) (hflen : f.pos + 12 ≤ f.data_len)
    (hfhdr : (f.data.drop f.pos).take 12
      = [m0, m1, m2, m3, q0, q1, q2, q3, z0, z1, z2, z3])
    (hfne : [m0, m1, m2, m3] ≠ ['F', 'O', 'R', 'M'].map Char.toNat
      ∨ [z0, z1, z2, z3] ≠ store32 Y) :
    iff_open_chunk c X = .ok (IffResult.UnexpectedTag, { c with pos := c.pos + 8 })
      ∧ iff_open_form f Y = .ok (IffResult.UnexpectedTag, { f with pos := f.pos + 12 }) := by
  constructor
  · have hy0 : y0 < 256 := byte_lt_of_mem_window hcwt (p := c.pos) (n := 8) (by simp [hchdr])
    have hy1 : y1 < 256 := byte_lt_of_mem_window hcwt (p := c.pos) (n := 8) (by simp [hchdr])
    have hy2 : y2 < 256 := byte_lt_of_mem_window hcwt (p := c.pos) (n := 8) (by simp [hchdr])
    have hy3 : y3 < 256 := byte_lt_of_mem_window hcwt (p := c.pos) (n := 8) (by simp [hchdr])
    have hne : load32 ((c.data.drop c.pos).take 8) 0 ≠ X := by
      rw [hchdr]
      intro heq
      exact hcne (by rw [← heq, store32_load32 hy0 hy1 hy2 hy3])
    rw [iff_open_chunk_eq c X hcwt hclen, if_pos hne]
  · have hm0 : m0 < 256 := byte_lt_of_mem_window hfwt (p := f.pos) (n := 12) (by simp [hfhdr])
    have hm1 : m1 < 256 := byte_lt_of_mem_window hfwt (p := f.pos) (n := 12) (by simp [hfhdr])
    have hm2 : m2 < 256 := byte_lt_of_mem_window hfwt (p := f.pos) (n := 12) (by simp [hfhdr])
    have hm3 : m3 < 256 := byte_lt_of_mem_window hfwt (p := f.pos) (n := 12) (by simp [hfhdr])
    have hz0 : z0 < 256 := byte_lt_of_mem_window hfwt (p := f.pos) (n := 12) (by simp [hfhdr])
    have hz1 : z1 < 256 := byte_lt_of_mem_window hfwt (p := f.pos) (n := 12) (by simp [hfhdr])
    have hz2 : z2 < 256 := byte_lt_of_mem_window hfwt (p := f.pos) (n := 12) (by simp [hfhdr])
    have hz3 : z3 < 256 := byte_lt_of_mem_window hfwt (p := f.pos) (n := 12) (by simp [hfhdr])
    have e8 : load32 ((f.data.drop f.pos).take 12) 8 = load32 [z0, z1, z2, z3] 0 := by
      rw [hfhdr]
      exact (load32_skip4 _ _ _ _ _ 4).trans (load32_skip4 _ _ _ _ _ 0)
    rw [iff_open_form_eq f Y hfwt hflen]
    by_cases h1 : load32 ((f.data.drop f.pos).take 12) 0 = ae_iff_tag ['F', 'O', 'R', 'M']
    · have hmk : [m0, m1, m2, m3] = ['F', 'O', 'R', 'M'].map Char.toNat := by
        rw [hfhdr] at h1
        rw [← store32_load32 hm0 hm1 hm2 hm3, h1]
        decide
      have hzne : load32 ((f.data.drop f.pos).take 12) 8 ≠ Y := by
        rw [e8]
        intro heq
        rcases hfne with h | h
        · exact h hmk
        · exact h (by rw [← heq, store32_load32 hz0 hz1 hz2 hz3])
      rw [if_neg (not_not.mpr h1), if_pos hzne]
    · rw [if_pos h1]

/-- C8 at `list_buf`: at cursor 12 the on-disk tag is `DATA`, so
`iff_open_chunk` of `ITEM` fails with the cursor at 20; at cursor 0 the on-disk
FORM tag is `LIST`, so `iff_open_form` of `ABCD` fails with the cursor at 12. -/
theorem open_tag_mismatch_witness :
    iff_open_chunk list_reader (ae_iff_tag ['I', 'T', 'E', 'M'])
        = .ok (IffResult.UnexpectedTag, { list_reader with pos := 20 })
      ∧ iff_open_form (iff_init list_buf 32) (ae_iff_tag ['A', 'B', 'C', 'D'])
        = .ok (IffResult.UnexpectedTag, { iff_init list_buf 32 with pos := 12 }) :=
  open_tag_mismatch list_reader (iff_init list_buf 32)
    (ae_iff_tag ['I', 'T', 'E', 'M']) 68 65 84 65 0 0 0 4
    (ae_iff_tag ['A', 'B', 'C', 'D']) 70 79 82 77 0 0 0 24 76 73 83 84
    (by decide) (by decide) (by decide) (by decide)
    (by decide) (by decide) (by decide) (by decide)

/-! ## C9: stack bound -/

/-- C9 (fails as stated): 64 calls of `iff_open_chunk` on `nested_headers 64`
succeed and reach `full_reader` at depth 64.  There the next open does not
return `StackExhausted` regardless of the buffer: `iff_open_chunk` of `AAAA`
finds the tag `FORM` and `iff_open_form` of `AAAA` finds the tag `BBBB`, so
both return `UnexpectedTag` (the header is read and compared before the
capacity check).  The depth stays 64. -/
theorem open_at_capacity_other_result :
    open_chunk_times (ae_iff_tag ['A', 'A', 'A', 'A']) 64 (iff_init (nested_headers 64) 524)
        = .ok (IffResult.Ok, full_reader)
      ∧ full_reader.stack_pos = 64
      ∧ iff_open_chunk full_reader (ae_iff_tag ['A', 'A', 'A', 'A'])
        = .ok (IffResult.UnexpectedTag, { full_reader with pos := 520 })
      ∧ iff_open_form full_reader (ae_iff_tag ['A', 'A', 'A', 'A'])
        = .ok (IffResult.UnexpectedTag, { full_reader with pos := 524 }) := by
  refine ⟨by decide, by decide, by decide, by decide⟩

/-- C9 (amended): at depth 64 no `iff_open_chunk` or `iff_open_form` returns
`Ok`, whatever the buffer, cursor and tag, and any result leaves the depth at 64
and the frames untouched; the result is `StackExhausted` when the header lies
inside the buffer and carries the expected tag (and, for a FORM, the marker
`FORM`).  Too few bytes (`ReadPastEof`) and a tag mismatch (`UnexpectedTag`) are
reported first. -/
theorem open_at_capacity (r : IffReader) (tag b0 b1 b2 b3 : Nat) (hwt : r.WellTyped)
    (hdepth : r.stack_pos = 64) :
    (∀ res r2, iff_open_chunk r tag = .ok (res, r2) →
        res ≠ IffResult.Ok ∧ r2.stack_pos = 64 ∧ r2.stack = r.stack)
      ∧ (∀ res r2, iff_open_form r tag = .ok (res, r2) →
        res ≠ IffResult.Ok ∧ r2.stack_pos = 64 ∧ r2.stack = r.stack)
      ∧ (tag < U32 → r.pos + 8 ≤ r.data_len →
        (r.data.drop r.pos).take 8 = store32 tag ++ [b0, b1, b2, b3] →
        iff_open_chunk r tag = .ok (IffResult.StackExhausted, { r with pos := r.pos + 8 }))
      ∧ (tag < U32 → r.pos + 12 ≤ r.data_len →
        (r.data.drop r.pos).take 12
          = ['F', 'O', 'R', 'M'].map Char.toNat ++ [b0, b1, b2, b3] ++ store32 tag →
        iff_open_form r tag = .ok (IffResult.StackExhausted, { r with pos := r.pos + 12 })) := by
  refine ⟨?_, ?_, ?_, ?_⟩
  · intro res r2 h
    unfold iff_open_chunk at h
    cases hr : iff_read_internal r 8 with
    | error t => simp [hr] at h
    | ok v =>
      obtain ⟨res0, r0, bytes⟩ := v
      rcases iff_read_internal_inv hr with ⟨rfl, rfl, -⟩ | ⟨rfl, rfl, -, -⟩
      · simp only [hr, ne_eq, reduceCtorEq, not_false_eq_true, if_true, Except.ok.injEq,
          Prod.mk.injEq] at h
        obtain ⟨rfl, rfl⟩ := h
        exact ⟨by simp, hdepth, rfl⟩
      · simp only [hr, ne_eq, not_true_eq_false, if_false, STACK_LEN, hdepth, ge_iff_le,
          le_refl, if_true] at h
        split_ifs at h <;>
          (simp only [Except.ok.injEq, Prod.mk.injEq] at h
           obtain ⟨rfl, rfl⟩ := h
           exact ⟨by simp, rfl, rfl⟩)
  · intro res r2 h
    unfold iff_open_form at h
    cases hr : iff_read_internal r 12 with
    | error t => simp [hr] at h
    | ok v =>
      obtain ⟨res0, r0, bytes⟩ := v
      rcases iff_read_internal_inv hr with ⟨rfl, rfl, -⟩ | ⟨rfl, rfl, -, -⟩
      · simp only [hr, ne_eq, reduceCtorEq, not_false_eq_true, if_true, Except.ok.injEq,
          Prod.mk.injEq] at h
        obtain ⟨rfl, rfl⟩ := h
        exact ⟨by simp, hdepth, rfl⟩
      · simp only [hr, ne_eq, not_true_eq_false, if_false, STACK_LEN, hdepth, ge_iff_le,
          le_refl, if_true] at h
        split_ifs at h <;>
          (simp only [Except.ok.injEq, Prod.mk.injEq] at h
           obtain ⟨rfl, rfl⟩ := h
           exact ⟨by simp, rfl, rfl⟩)
  · intro htag hlen hb
    have e0 : load32 ((r.data.drop r.pos).take 8) 0 = tag := by
      rw [hb]; exact load32_store32 htag _
    rw [iff_open_chunk_eq r tag hwt hlen, if_neg (not_not.mpr e0), if_pos (by omega)]
  · intro htag hlen hb
    have e0 : load32 ((r.data.drop r.pos).take 12) 0 = ae_iff_tag ['F', 'O', 'R', 'M'] := by
      rw [hb, ae_iff_tag_FORM, form_marker]
      exact load32_zero 70 79 82 77 _
    have e8 : load32 ((r.data.drop r.pos).take 12) 8 = tag := by
      rw [hb, form_marker]
      exact ((load32_skip4 70 79 82 77 _ 4).trans (load32_skip4 b0 b1 b2 b3 _ 0)).trans
        (by simpa using load32_store32 htag [])
    rw [iff_open_form_eq r tag hwt hlen, if_neg (not_not.mpr e0), if_neg (not_not.mpr e8),
      if_pos (by omega)]

/-- C9 (amended) at `full_reader` (depth 64, cursor 512, followed by the bytes
`FORM`, size 4, `BBBB`): `iff_open_form` of `BBBB` and `iff_open_chunk` of the
tag `FORM` both return `StackExhausted`, and the depth is still 64. -/
theorem open_at_capacity_witness :
    iff_open_chunk full_reader (ae_iff_tag ['F', 'O', 'R', 'M'])
        = .ok (IffResult.StackExhausted, { full_reader with pos := 520 })
      ∧ iff_open_form full_reader (ae_iff_tag ['B', 'B', 'B', 'B'])
        = .ok (IffResult.StackExhausted, { full_reader with pos := 524 })
      ∧ ({ full_reader with pos := 520 } : IffReader).stack_pos = 64 :=
  ⟨(open_at_capacity full_reader (ae_iff_tag ['F', 'O', 'R', 'M']) 0 0 0 4
      (by decide) (by decide)).2.2.1 (by decide) (by decide) (by decide),
   (open_at_capacity full_reader (ae_iff_tag ['B', 'B', 'B', 'B']) 0 0 0 4
      (by decide) (by decide)).2.2.2 (by decide) (by decide) (by decide),
   ((open_at_capacity full_reader (ae_iff_tag ['F', 'O', 'R', 'M']) 0 0 0 4
      (by decide) (by decide)).1 _ _
        ((open_at_capacity full_reader (ae_iff_tag ['F', 'O', 'R', 'M']) 0 0 0 4
          (by decide) (by decide)).2.2.1 (by decide) (by decide) (by decide))).2.1⟩

/-! ## C10: remaining-children count -/

/-- C10: let the top frame of `r` end inside the buffer, the cursor be at or
after its start (right after the open it is the start), and the bytes from the
cursor to the frame's end be exactly the chunks `hdrs` back to back
(`k = hdrs.length`).  Then, with fuel for `k` iterations,
`iff_get_remaining_children` returns `k`; in any reader reached by consuming the
first `j ≤ k` children with matching `iff_open_chunk` / `iff_close_chunk` pairs
it returns `k - j`, and below depth 64 that walk does succeed; and on a reader
`z` with no open frame it returns 0. -/
theorem remaining_children_count (r z : IffReader) (top : IffStackNode)
    (hdrs : List (Nat × Nat)) (j fuel : Nat) (hwt : r.WellTyped) (hd : 0 < r.stack_pos)
    (htop : r.stack[r.stack_pos - 1]? = some top) (hstart : top.start ≤ r.pos)
    (hend : top.end_ ≤ r.data_len) (hspan : chunks_span r.data hdrs r.pos top.end_)
    (hj : j ≤ hdrs.length) (hfuel : hdrs.length ≤ fuel) (hz : z.stack_pos = 0) :
    iff_get_remaining_children fuel r = .ok hdrs.length
      ∧ (∀ rj, walk_children ((hdrs.take j).map Prod.fst) r = .ok (IffResult.Ok, rj) →
          iff_get_remaining_children fuel rj = .ok (hdrs.length - j))
      ∧ (r.stack_pos < 64 →
          ∃ rj, walk_children ((hdrs.take j).map Prod.fst) r = .ok (IffResult.Ok, rj))
      ∧ iff_get_remaining_children fuel z = .ok 0 := by
  have hcount := remaining_children_span r top hdrs fuel hwt hd htop hstart hspan hfuel
  obtain ⟨q, hq1, hq2⟩ := chunks_span_split hdrs j _ _ hspan
  have hq1le := chunks_span_le _ _ _ hq1
  have hq2le := chunks_span_le _ _ _ hq2
  have hwalk : r.stack_pos < 64 →
      ∃ rj, walk_children ((hdrs.take j).map Prod.fst) r = .ok (IffResult.Ok, rj)
        ∧ iff_get_remaining_children fuel rj = .ok (hdrs.length - j) := by
    intro hd64
    obtain ⟨rj, hw, hp, hs, hdat, -, hwtj, hst⟩ :=
      walk_children_span (hdrs.take j) r q hwt hd64 hq1 (by omega)
    refine ⟨rj, hw, ?_⟩
    have := remaining_children_span rj top (hdrs.drop j) fuel hwtj (by omega)
      (by rw [hs, hst _ (by omega)]; exact htop) (by omega)
      (by rw [hdat, hp]; exact hq2) (by simp only [List.length_drop]; omega)
    rw [this, List.length_drop]
  refine ⟨hcount, ?_, ?_, ?_⟩
  · intro rj hrj
    by_cases hd64 : r.stack_pos < 64
    · obtain ⟨rj0, hw0, hc0⟩ := hwalk hd64
      rw [hw0] at hrj
      simp only [Except.ok.injEq, Prod.mk.injEq, true_and] at hrj
      rw [← hrj]
      exact hc0
    · cases hdrs with
      | nil =>
        simp only [List.take_nil, List.map_nil, walk_children, Except.ok.injEq, Prod.mk.injEq,
          true_and] at hrj
        rw [← hrj]
        simpa using hcount
      | cons hdr rest =>
        cases j with
        | zero =>
          simp only [List.take_zero, List.map_nil, walk_children, Except.ok.injEq,
            Prod.mk.injEq, true_and] at hrj
          rw [← hrj]
          simpa using hcount
        | succ j =>
          exfalso
          simp only [List.take_succ_cons, List.map_cons, walk_children] at hrj
          cases ho : iff_open_chunk r hdr.1 with
          | error t => simp [ho] at hrj
          | ok v =>
            obtain ⟨res, r1⟩ := v
            by_cases hres : res = IffResult.Ok
            · subst hres
              obtain ⟨_, -, -, hlt, -⟩ := iff_open_chunk_inv ho
              exact hd64 hlt
            · cases res <;> first | exact hres rfl | simp [ho] at hrj
  · intro hd64
    obtain ⟨rj, hw, -⟩ := hwalk hd64
    exact ⟨rj, hw⟩
  · simp [iff_get_remaining_children, hz]

/-- C10 at `list_reader`, whose frame `[12, 32)` holds `CHUNK(DATA, 4)` and
`CHUNK(ITEM, 0)`: the count is 2 after the open and 1 after the first child
has been consumed; on the initial reader it is 0. -/
theorem remaining_children_count_witness :
    iff_get_remaining_children 2 list_reader = .ok 2
      ∧ (∃ r1, walk_children [ae_iff_tag ['D', 'A', 'T', 'A']] list_reader
            = .ok (IffResult.Ok, r1)
          ∧ iff_get_remaining_children 2 r1 = .ok 1)
      ∧ iff_get_remaining_children 2 (iff_init list_buf 32) = .ok 0 := by
  obtain ⟨h1, h2, h3, h4⟩ := remaining_children_count list_reader (iff_init list_buf 32)
    { start := 12, end_ := 32, tag := ae_iff_tag ['L', 'I', 'S', 'T'] }
    [(ae_iff_tag ['D', 'A', 'T', 'A'], 4), (ae_iff_tag ['I', 'T', 'E', 'M'], 0)] 1 2
    (by decide) (by decide) (by decide) (by decide) (by decide) (by decide) (by decide)
    (by decide) (by decide)
  obtain ⟨r1, hr1⟩ := h3 (by decide)
  exact ⟨h1, ⟨r1, hr1, h2 r1 hr1⟩, h4⟩

/-! ## C11: end to end -/

/-- C11: on the 72-byte buffer `nested_buf`, starting from `iff_init`, the 15
calls of `nested_ops` (open OUTR, open INNR, open DATA, read 4, close DATA, open
and close ITEM twice, close INNR, open TAIL, open LEAF, close LEAF, close TAIL,
close OUTR) all return `Ok`, and the final reader has depth 0 and its cursor at
72, the length of the buffer. -/
theorem end_to_end :
    nested_buf.length = 72
      ∧ (run_ops nested_ops (iff_init nested_buf 72)).map
          (fun p => (p.1, p.2.stack_pos, p.2.pos))
        = .ok (List.replicate 15 IffResult.Ok, 0, 72) := by
  refine ⟨by decide, by decide⟩

/-! ## C12: nesting invariant -/

/-- C12 (fails as stated): on `short_form_buf` the single call `iff_open_form`
returns `Ok` and pushes the frame `{start = 12, end = 8}` with the cursor at 12,
so the cursor is not inside the open frame.  On `unterminated_buf` the calls
`iff_open_chunk` and `iff_read_string` both return `Ok` and leave the cursor at
13, past the end 10 of the open frame.  On `overhang_buf` the calls
`iff_open_form` and `iff_open_chunk` both return `Ok` and push the frames
`{12, 20}` and `{20, 36}`: the inner frame ends past the outer one. -/
theorem nesting_violated :
    (∃ r, ok_run [.open_form (ae_iff_tag ['A', 'B', 'C', 'D'])] (iff_init short_form_buf 13) r
      ∧ r.stack_pos = 1 ∧ frame r 0 = { start := 12, end_ := 8,
                                          tag := ae_iff_tag ['A', 'B', 'C', 'D'] }
      ∧ r.pos = 12 ∧ ¬ Nested r)
    ∧ (∃ r, ok_run [.open_chunk (ae_iff_tag ['D', 'A', 'T', 'A']),
                    .read_string 4 { str := List.replicate 256 0, size := 256 }]
          (iff_init unterminated_buf 13) r
      ∧ r.stack_pos = 1 ∧ frame r 0 = { start := 8, end_ := 10,
                                          tag := ae_iff_tag ['D', 'A', 'T', 'A'] }
      ∧ r.pos = 13 ∧ ¬ Nested r)
    ∧ (∃ r, ok_run [.open_form (ae_iff_tag ['L', 'I', 'S', 'T']),
                    .open_chunk (ae_iff_tag ['D', 'A', 'T', 'A'])]
          (iff_init overhang_buf 36) r
      ∧ r.stack_pos = 2 ∧ frame r 0 = { start := 12, end_ := 20,
                                          tag := ae_iff_tag ['L', 'I', 'S', 'T'] }
      ∧ frame r 1 = { start := 20, end_ := 36, tag := ae_iff_tag ['D', 'A', 'T', 'A'] }
      ∧ r.pos = 20 ∧ ¬ Nested r) :=
  ⟨⟨{ pos := 12, data_len := 13, data := short_form_buf,
      stack := (List.replicate 64 { start := 0, end_ := 0, tag := 0 }).set 0
        { start := 12, end_ := 8, tag := ae_iff_tag ['A', 'B', 'C', 'D'] },
      stack_pos := 1 },
    ⟨_, by decide, rfl⟩, by decide, by decide, by decide, by decide⟩,
   ⟨{ unterminated_reader with pos := 13 },
    ⟨unterminated_reader, by decide, _, by decide, rfl⟩,
    by decide, by decide, by decide, by decide⟩,
   ⟨{ pos := 20, data_len := 36, data := overhang_buf,
      stack := ((List.replicate 64 { start := 0, end_ := 0, tag := 0 }).set 0
        { start := 12, end_ := 20, tag := ae_iff_tag ['L', 'I', 'S', 'T'] }).set 1
        { start := 20, end_ := 36, tag := ae_iff_tag ['D', 'A', 'T', 'A'] },
      stack_pos := 2 },
    ⟨{ pos := 12, data_len := 36, data := overhang_buf,
       stack := (List.replicate 64 { start := 0, end_ := 0, tag := 0 }).set 0
         { start := 12, end_ := 20, tag := ae_iff_tag ['L', 'I', 'S', 'T'] },
       stack_pos := 1 },
     by decide, _, by decide, rfl⟩,
    by decide, by decide, by decide, by decide, by decide⟩⟩

/-- C12 (amended): for every buffer of `data_len < 2^32` addressable bytes and
every sequence of public operations applied from `iff_init` in which every call
returned `Ok`, every open found under the cursor a header whose declared size
`N` has `cursor + 8 + N ≤` the enclosing scope's end (the top frame's end, or
`data_len` at depth 0) and, for a FORM, `N ≥ 4`, and every string read had a
zero byte in `[cursor, top.end)`, the resulting state has the cursor inside
every open frame and every open frame inside the one below it; every open frame
also ends inside the buffer. -/
theorem nesting_of_guarded_run (data : List Nat) (data_len : Nat) (ops : List Op)
    (r : IffReader) (hlen : data_len ≤ data.length) (hl32 : data_len < U32)
    (hbytes : ∀ b ∈ data, b < 256) (hrun : guarded_run ops (iff_init data data_len) r) :
    (∀ i, i < r.stack_pos → (frame r i).start ≤ r.pos ∧ r.pos ≤ (frame r i).end_)
      ∧ (∀ i, i < r.stack_pos → 0 < i →
          (frame r i).start ≥ (frame r (i - 1)).start
            ∧ (frame r i).end_ ≤ (frame r (i - 1)).end_)
      ∧ (∀ i, i < r.stack_pos → (frame r i).end_ ≤ r.data_len) := by
  obtain ⟨hwt, hwf⟩ := init_wellTyped_wf hlen hl32 hbytes
  obtain ⟨hwf2, -⟩ := guarded_run_wf ops _ r hwt hwf hrun
  exact ⟨(wf_nested hwf2).1, (wf_nested hwf2).2, fun i hi => (hwf2.2.1 i hi).2⟩

/-- C12 (amended) on `list_buf`: the header `FORM(24, LIST)` at 0 has
`0 + 8 + 24 ≤ 32` and the header `DATA` of size 4 at 12 has `12 + 8 + 4 ≤ 32`;
after `iff_open_form` of `LIST` and `iff_open_chunk` of `DATA` the cursor 20
lies inside both frames `[12, 32]` and `[20, 24]`, the second lies inside the
first, and both end inside the 32 bytes of the buffer. -/
theorem nesting_of_guarded_run_witness :
    (∀ i, i < list_data_reader.stack_pos →
        (frame list_data_reader i).start ≤ list_data_reader.pos
          ∧ list_data_reader.pos ≤ (frame list_data_reader i).end_)
      ∧ (∀ i, i < list_data_reader.stack_pos → 0 < i →
          (frame list_data_reader i).start ≥ (frame list_data_reader (i - 1)).start
            ∧ (frame list_data_reader i).end_ ≤ (frame list_data_reader (i - 1)).end_)
      ∧ (∀ i, i < list_data_reader.stack_pos →
          (frame list_data_reader i).end_ ≤ list_data_reader.data_len) :=
  nesting_of_guarded_run list_buf 32
    [.open_form (ae_iff_tag ['L', 'I', 'S', 'T']), .open_chunk (ae_iff_tag ['D', 'A', 'T', 'A'])]
    list_data_reader (by decide) (by decide) (by decide)
    ⟨list_reader, by simp only [header_fits]; decide, by decide,
      list_data_reader, by simp only [header_fits]; decide, by decide, rfl⟩

/-! ## C13: depth bound -/

/-- C13: every reader reachable from `iff_init` by calls of the public
operations, whatever they returned, has `0 ≤ depth ≤ 64` and its 64 frame slots,
and no call made from it leaves the frame array: `iff_close_chunk` and
`iff_close_form` (slot `depth - 1`) always return; an `iff_open_chunk` or
`iff_open_form` (slot `depth`) that does not return could not address its header
in the buffer; an `iff_read` (slot `depth - 1`) that does not return could not
address its source bytes; an `iff_get_remaining_children` (slot `depth - 1`)
that does not return stopped in its scan loop over the buffer. -/
theorem depth_bounded (data : List Nat) (data_len : Nat) (r : IffReader)
    (h : Reachable data data_len r) :
    0 ≤ r.stack_pos ∧ r.stack_pos ≤ 64 ∧ r.stack.length = 64
      ∧ (∀ tag, ∃ res r2, iff_close_chunk r tag = .ok (res, r2))
      ∧ (∀ tag, ∃ res r2, iff_close_form r tag = .ok (res, r2))
      ∧ (∀ tag t, iff_open_chunk r tag = .error t → memcpy r.data r.pos 8 = none)
      ∧ (∀ tag t, iff_open_form r tag = .error t → memcpy r.data r.pos 12 = none)
      ∧ (∀ size t, iff_read r size = .error t → memcpy r.data r.pos size = none)
      ∧ (∀ fuel t, iff_get_remaining_children fuel r = .error t →
          remaining_children_loop r.data (frame r (r.stack_pos - 1)).end_ fuel r.pos 0
            = .error t) := by
  obtain ⟨hd, hl⟩ := reachable_depth h
  exact ⟨Nat.zero_le _, hd, hl, iff_close_chunk_returns hd hl, iff_close_chunk_returns hd hl,
    fun _ _ ht => iff_open_chunk_trap hl ht, fun _ _ ht => iff_open_form_trap hl ht,
    fun _ _ ht => iff_read_trap hd hl ht,
    fun _ _ ht => iff_get_remaining_children_trap hd hl ht⟩

/-- C13 at `full_reader`, reached from `iff_init (nested_headers 64) 524` by 64
calls of `iff_open_chunk` that returned `Ok`: its depth is 64, the capacity of
the frame array, and no call made from it leaves the frame array. -/
theorem depth_bounded_witness :
    Reachable (nested_headers 64) 524 full_reader
      ∧ 0 ≤ full_reader.stack_pos ∧ full_reader.stack_pos ≤ 64
      ∧ full_reader.stack.length = 64
      ∧ (∀ tag, ∃ res r2, iff_close_chunk full_reader tag = .ok (res, r2))
      ∧ (∀ tag, ∃ res r2, iff_close_form full_reader tag = .ok (res, r2))
      ∧ (∀ tag t, iff_open_chunk full_reader tag = .error t →
          memcpy full_reader.data full_reader.pos 8 = none)
      ∧ (∀ tag t, iff_open_form full_reader tag = .error t →
          memcpy full_reader.data full_reader.pos 12 = none)
      ∧ (∀ size t, iff_read full_reader size = .error t →
          memcpy full_reader.data full_reader.pos size = none)
      ∧ (∀ fuel t, iff_get_remaining_children fuel full_reader = .error t →
          remaining_children_loop full_reader.data
            (frame full_reader (full_reader.stack_pos - 1)).end_ fuel full_reader.pos 0
            = .error t) :=
  ⟨reachable_open_chunk_times _ 64 _ _ Reachable.init full_reader_opened,
   depth_bounded (nested_headers 64) 524 full_reader
     (reachable_open_chunk_times _ 64 _ _ Reachable.init full_reader_opened)⟩

/-! ## C14: reads and the buffer's end -/

/-- C14 (fails on the code): on the 12-byte `oversize_buf`, `iff_open_chunk`
returns `Ok` and pushes the frame `[8, 24]` although the buffer ends at 12.  An
`iff_read` of 8 bytes at cursor 8 passes the frame check (`8 ≤ 24 - 8`) and
copies from indices 8 to 15: when the memory ends with the buffer that copy is
outside it, and when more bytes are addressable behind the buffer the call
returns `Ok` with four bytes from beyond `data_len`, so `cursor + size = 16 > 12`
held before a call that returned `Ok`. -/
theorem iff_read_past_buffer :
    iff_open_chunk (iff_init oversize_buf 12) (ae_iff_tag ['D', 'A', 'T', 'A'])
        = .ok (IffResult.Ok, oversize_reader oversize_buf)
      ∧ iff_read (oversize_reader oversize_buf) 8 = .error Trap.OutOfBounds
      ∧ iff_open_chunk (iff_init oversize_slack 12) (ae_iff_tag ['D', 'A', 'T', 'A'])
        = .ok (IffResult.Ok, oversize_reader oversize_slack)
      ∧ iff_read (oversize_reader oversize_slack) 8
        = .ok (IffResult.Ok, { oversize_reader oversize_slack with pos := 16 },
            [1, 2, 3, 4, 9, 9, 9, 9])
      ∧ (oversize_reader oversize_slack).pos + 8 > (oversize_reader oversize_slack).data_len := by
  refine ⟨by decide, by decide, by decide, by decide, by decide⟩

/-! ## C15: header reads and the buffer's end -/

/-- C15 (fails on the code): on `oversize_buf`, `iff_open_chunk` and
`iff_close_chunk` of `DATA` both return `Ok` and leave the cursor at 24 at depth
0, past `data_len = 12`, so `data_len - cursor < 8`.  The next `iff_open_chunk`
and `iff_open_form` do not return `ReadPastEof`: the `uint32_t` difference
`data_len - pos` wraps to `2^32 - 12`, the check passes and the header is copied
from index 24 on, outside the buffer.  When those bytes are addressable
(`oversize_slack`) the open even returns `Ok` on a header read from there. -/
theorem header_read_past_buffer :
    (∃ r, ok_run [.open_chunk (ae_iff_tag ['D', 'A', 'T', 'A']),
                  .close_chunk (ae_iff_tag ['D', 'A', 'T', 'A'])] (iff_init oversize_buf 12) r
        ∧ r.pos = 24 ∧ r.data_len = 12 ∧ ((r.data_len : Int) - (r.pos : Int) < 8)
        ∧ iff_open_chunk r (ae_iff_tag ['D', 'A', 'T', 'A']) = .error Trap.OutOfBounds
        ∧ iff_open_form r (ae_iff_tag ['D', 'A', 'T', 'A']) = .error Trap.OutOfBounds)
      ∧ (∃ r r2, ok_run [.open_chunk (ae_iff_tag ['D', 'A', 'T', 'A']),
                  .close_chunk (ae_iff_tag ['D', 'A', 'T', 'A'])] (iff_init oversize_slack 12) r
        ∧ r.pos = 24 ∧ r.data_len = 12
        ∧ iff_open_chunk r (ae_iff_tag ['D', 'A', 'T', 'A']) = .ok (IffResult.Ok, r2)
        ∧ r2.pos = 32) :=
  ⟨⟨{ oversize_reader oversize_buf with pos := 24, stack_pos := 0 },
     ⟨oversize_reader oversize_buf, by decide, _, by decide, rfl⟩,
     by decide, by decide, by decide, by decide, by decide⟩,
   ⟨{ oversize_reader oversize_slack with pos := 24, stack_pos := 0 },
     { oversize_reader oversize_slack with
       pos := 32
       stack := (oversize_reader oversize_slack).stack.set 0
         { start := 32, end_ := 32, tag := ae_iff_tag ['D', 'A', 'T', 'A'] }
       stack_pos := 1 },
     ⟨oversize_reader oversize_slack, by decide, _, by decide, rfl⟩,
     by decide, by decide, by decide, by decide⟩⟩

/-! ## C16: bounded string read -/

/-- C16 (fails on the code): `unterminated_reader` is reached by opening
`CHUNK(DATA, 2)`; its frame is `[8, 10)` and holds no zero byte.
`iff_read_string` into a 256-byte destination returns `Ok`: it reads the bytes
at 10, 11 and 12 beyond the frame's end and leaves the cursor at 13.  Into a
destination of capacity 2 it stores four bytes: with two more addressable bytes
behind the destination it returns `Ok` with all four written, and with none the
third store is outside the destination's memory. -/
theorem iff_read_string_unbounded :
    iff_open_chunk (iff_init unterminated_buf 13) (ae_iff_tag ['D', 'A', 'T', 'A'])
        = .ok (IffResult.Ok, unterminated_reader)
      ∧ unterminated_reader.stack[unterminated_reader.stack_pos - 1]?
        = some { start := 8, end_ := 10, tag := ae_iff_tag ['D', 'A', 'T', 'A'] }
      ∧ (∀ i, 8 ≤ i → i < 10 → unterminated_buf[i]? ≠ some 0)
      ∧ iff_read_string 4 unterminated_reader { str := List.replicate 256 0, size := 256 }
        = .ok (IffResult.Ok, { unterminated_reader with pos := 13 },
            { str := [65, 66, 67, 68] ++ List.replicate 252 0, size := 256 })
      ∧ iff_read_string 4 unterminated_reader { str := [0, 0, 0, 0], size := 2 }
        = .ok (IffResult.Ok, { unterminated_reader with pos := 13 },
            { str := [65, 66, 67, 68], size := 2 })
      ∧ iff_read_string 4 unterminated_reader { str := [0, 0], size := 2 }
        = .error Trap.OutOfBounds := by
  refine ⟨by decide, by decide, ?_, by decide, by decide, by decide⟩
  intro i h1 h2
  have : i = 8 ∨ i = 9 := by omega
  rcases this with rfl | rfl <;> decide

/-! ## C17: string read result -/

/-- C17: with an open frame, `n` non-zero bytes at the cursor `p` followed by
the first zero byte at `p + n`, `p + n < frame.end ≤ data_len`, and `n` within
the destination's capacity, `iff_read_string` (with fuel for `n` iterations)
returns `Ok`, the first `n` destination bytes are `data[p .. p + n)` and the
rest of the destination is untouched, the cursor becomes `p + n + 1`, and depth
and frames are unchanged; on a reader `z` with no open frame it returns
`StackExhausted` and changes nothing. -/
theorem iff_read_string_ok (fuel : Nat) (r z : IffReader) (str : String8)
    (top : IffStackNode) (n : Nat) (hwt : r.WellTyped) (hd : 0 < r.stack_pos)
    (htop : r.stack[r.stack_pos - 1]? = some top)
    (hnz : ∀ b ∈ (r.data.drop r.pos).take n, b ≠ 0) (hz : r.data[r.pos + n]? = some 0)
    (hend : r.pos + n < top.end_) (hbuf : top.end_ ≤ r.data_len)
    (hcap : n ≤ str.size) (hmem : str.size ≤ str.str.length) (hfuel : n ≤ fuel)
    (hz0 : z.stack_pos = 0) :
    iff_read_string fuel r str
        = .ok (IffResult.Ok, { r with pos := r.pos + n + 1 },
            { str with str := (r.data.drop r.pos).take n ++ str.str.drop n })
      ∧ iff_read_string fuel z str = .ok (IffResult.StackExhausted, z, str) := by
  obtain ⟨hp, hl, hs, hlen, hst, hby, hdl⟩ := hwt
  have _ := htop
  constructor
  · have hloop := read_string_loop_ok r.data n fuel str.str r.pos 0 hfuel (by omega) (by omega)
      (by omega)
      (fun b hb => ⟨hnz b hb, hby b (List.mem_of_mem_drop (List.mem_of_mem_take hb))⟩) hz
    unfold iff_read_string
    simp only [show r.stack_pos ≠ 0 by omega, if_false, hloop, List.take_zero, List.nil_append,
      Nat.zero_add, add32_of_lt (show r.pos + n + 1 < U32 by omega)]
  · simp [iff_read_string, hz0]

/-- C17 on the string `AB` inside `CHUNK(NAME, 3)`: the two bytes are copied to
a 4-byte destination and the cursor moves from 8 to 11. -/
theorem iff_read_string_ok_witness :
    iff_read_string 2 name_reader { str := [7, 7, 7, 7], size := 4 }
        = .ok (IffResult.Ok, { name_reader with pos := 8 + 2 + 1 },
            { str := [65, 66, 7, 7], size := 4 })
      ∧ iff_read_string 2 (iff_init name_buf 11) { str := [7, 7, 7, 7], size := 4 }
        = .ok (IffResult.StackExhausted, iff_init name_buf 11,
            { str := [7, 7, 7, 7], size := 4 }) :=
  iff_read_string_ok 2 name_reader (iff_init name_buf 11) { str := [7, 7, 7, 7], size := 4 }
    { start := 8, end_ := 11, tag := ae_iff_tag ['N', 'A', 'M', 'E'] } 2
    (by decide) (by decide) (by decide) (by decide) (by decide) (by decide) (by decide)
    (by decide) (by decide) (by decide) (by decide)

/-! ## C18: error propagation in the schema walker -/

/-- C18 (fails on the code): on the empty buffer the first `iff_open_form` of
`read_asht` returns `ReadPastEof`, and so do the other opens, while the read
and the closes fail on the empty stack; `read_asht` goes through all of them and
returns `Ok`.  Whatever the buffer, a `read_asht` that returns returns `Ok`. -/
theorem read_asht_drops_errors :
    iff_open_form (iff_init [] 0) (ae_iff_tag ['A', 'T', 'S', 'H'])
        = .ok (IffResult.ReadPastEof, iff_init [] 0)
      ∧ (∀ fuel, read_asht fuel (iff_init [] 0) = .ok (IffResult.Ok, iff_init [] 0))
      ∧ (∀ fuel r res r2, read_asht fuel r = .ok (res, r2) → res = IffResult.Ok) := by
  refine ⟨by decide, fun fuel => by rfl, ?_⟩
  intro fuel r res r2 h
  unfold read_asht at h
  simp only [bind, Except.bind, pure, Except.pure] at h
  repeat' split at h
  all_goals first
    | exact (Prod.mk.inj (Except.ok.inj h)).1.symm
    | exact absurd h (by simp)

/-! ## C19: bounded lookahead -/

/-- C19 (fails as stated): `spin_reader` is reached by opening `FORM(12, LOOP)`
of `spin_buf`; its frame `[12, 20]` holds one header whose size field is
`0xFFFFFFF8`, so the advance `8 + size` is 0 modulo `2^32`.  The scan pointer
stays at 12, below the frame's end, and the loop of
`iff_get_remaining_children` is not over after any number of rounds. -/
theorem remaining_children_spins :
    iff_open_form (iff_init spin_buf 20) (ae_iff_tag ['L', 'O', 'O', 'P'])
        = .ok (IffResult.Ok, spin_reader)
      ∧ add32 12 (add32 (declared_size spin_buf 12) 8) = 12
      ∧ ∀ fuel, iff_get_remaining_children fuel spin_reader = .error Trap.OutOfFuel := by
  refine ⟨by decide, by decide, ?_⟩
  intro fuel
  exact spin_loop fuel 0

/-- C19 (amended): for every well-typed reader with an open frame in which,
at every offset `c` the scan pointer takes below the frame's end, the header is
addressable and its advance does not wrap (`c + 8 + size < 2^32`), the scan loop
of `iff_get_remaining_children` terminates: with fuel for `end - cursor` rounds
the function returns a count. -/
theorem remaining_children_terminates (r : IffReader) (top : IffStackNode) (fuel : Nat)
    (hwt : r.WellTyped) (hd : 0 < r.stack_pos)
    (htop : r.stack[r.stack_pos - 1]? = some top)
    (hscan : ∀ c, Scanned r.data top.end_ r.pos c → c < top.end_ →
      c + 8 ≤ r.data.length ∧ c + 8 + declared_size r.data c < U32)
    (hfuel : top.end_ - r.pos ≤ fuel) :
    ∃ n, iff_get_remaining_children fuel r = .ok n := by
  have hs : sub32 r.stack_pos 1 = r.stack_pos - 1 := sub32_of_le hd hwt.2.2.1
  unfold iff_get_remaining_children
  simp only [show r.stack_pos ≠ 0 by omega, if_false, hs, htop]
  split_ifs with hout
  · exact ⟨0, rfl⟩
  · exact remaining_children_loop_ends r.data top.end_ r.pos hscan fuel r.pos 0
      Scanned.first hfuel

/-- C19 (amended) at `list_reader`: the scan takes the offsets 12 and 24, whose
headers declare the sizes 4 and 0, and with fuel 20 the function returns. -/
theorem remaining_children_terminates_witness :
    ∃ n, iff_get_remaining_children 20 list_reader = .ok n :=
  remaining_children_terminates list_reader
    { start := 12, end_ := 32, tag := ae_iff_tag ['L', 'I', 'S', 'T'] } 20
    (by decide) (by decide) (by decide)
    (by
      intro c hc hlt
      rcases scanned_list_buf hc with rfl | rfl | rfl
      · decide
      · decide
      · exact absurd hlt (by decide))
    (by decide)

/-! ## C20: conditional preservation of well-formedness -/

/-- C20: if a well-typed reader is well formed (`WF`: depth at most 64, every
open frame has `start ≤ end ≤ data_len` and lies within its parent, the cursor
lies within the top frame, or within the buffer at depth 0) and a call returns
`Ok`, the reader it leaves is well formed again and well typed, provided an
open pushed a frame with `start ≤ end ≤` the enclosing scope's end and a string
read had a zero byte at an index in `[cursor, top.end)`; `iff_read`,
`iff_close_chunk` and `iff_close_form` need no side condition. -/
theorem wf_preserved (op : Op) (r r2 : IffReader) (hwt : r.WellTyped) (hwf : WF r)
    (hstep : step op r = .ok (IffResult.Ok, r2)) (hprov : proviso op r r2) :
    WF r2 ∧ r2.WellTyped := by
  refine ⟨?_, step_wellTyped hwt hstep⟩
  cases op with
  | open_form tag =>
    simp only [proviso] at hprov
    exact wf_open_form hwt hwf hstep hprov
  | open_chunk tag =>
    simp only [proviso] at hprov
    exact wf_open_chunk hwt hwf hstep hprov
  | read size =>
    simp only [step] at hstep
    cases hr : iff_read r size with
    | error t => simp [hr] at hstep
    | ok v =>
      obtain ⟨res0, r0, dst⟩ := v
      simp only [hr, Except.ok.injEq, Prod.mk.injEq] at hstep
      obtain ⟨rfl, rfl⟩ := hstep
      exact wf_read hwt hwf hr
  | read_string fuel str =>
    simp only [step] at hstep
    simp only [proviso] at hprov
    cases hr : iff_read_string fuel r str with
    | error t => simp [hr] at hstep
    | ok v =>
      obtain ⟨res0, r0, dst⟩ := v
      simp only [hr, Except.ok.injEq, Prod.mk.injEq] at hstep
      obtain ⟨rfl, rfl⟩ := hstep
      exact wf_read_string hwt hwf hr hprov
  | close_chunk tag =>
    simp only [step] at hstep
    exact wf_close hwt hwf hstep
  | close_form tag =>
    simp only [step, iff_close_form] at hstep
    exact wf_close hwt hwf hstep

/-- C20 at `list_reader`: `iff_open_chunk` of `DATA` pushes `[20, 24]` inside
the frame `[12, 32]`, and the reader it leaves is well formed and well typed. -/
theorem wf_preserved_witness : WF list_data_reader ∧ list_data_reader.WellTyped :=
  wf_preserved (.open_chunk (ae_iff_tag ['D', 'A', 'T', 'A'])) list_reader list_data_reader
    (by decide) (by decide) (by decide) (by simp only [proviso]; decide)

end Iff
